import Mathlib

/-
  Verification development for the Atomic-chess UCI engine (seer-nnue).

  Shallow embedding of the components referenced by the specification:
  the board/move core of `src/chess/board.cc` (blast semantics, `forward_`,
  `is_legal_`, `see_ge_`/`see_gt`), the reference SEE `see_example.h`,
  the NNUE feature indexing of `include/eval/nnue.h` and
  `include/eval/nnue/coords.h`, the parameter-stream padding of
  `include/eval/nnue/io.h`, the accumulator-stack pointer discipline of
  `NnueState`, the Atomic-Syzygy probe of `src/search/atomic_syzygy_core.cc`
  and `src/search/atomic_tbprobe.cc`, and `board::parse_fen`.

  Bitboards (`square_set`, a 64-bit set of squares) are embedded as
  `Finset (Fin 64)`; removing every member of a mask from a plane is the
  set difference, adding/removing a single square is `insert`/`erase`.
  Headers that are not part of the sources (`board.h`, `move.h`,
  `square.h`, `castle_info.h`, `table_generation.h`) are modelled from the
  specification's data model: the square convention `sq = rank*8 + (7 - file)`
  and standard chess attack geometry.
-/

set_option maxHeartbeats 1000000

namespace Seer

/-- A square index 0..63.  Modelled from the spec: `sq = rank*8 + (7 - file)`,
so rank 0 is White's back rank and the low three bits hold `7 - file`. -/
abbrev Sq : Type := Fin 64

/-- `square_set`: a 64-bit set of squares, embedded as a finite set. -/
abbrev SquareSet : Type := Finset Sq

/-- `color` from `chess/types.h` (header not in the sources; modelled from the
spec's data model `Color : { white, black }`). -/
inductive Color : Type where
  | white : Color
  | black : Color
deriving DecidableEq, Repr

/-- `opponent<color>`. -/
def opponent : Color → Color
  | Color.white => Color.black
  | Color.black => Color.white

/-- `piece_type`, ordered `pawn(0) .. king(5)` as in the spec's data model. -/
inductive PieceType : Type where
  | pawn : PieceType
  | knight : PieceType
  | bishop : PieceType
  | rook : PieceType
  | queen : PieceType
  | king : PieceType
deriving DecidableEq, Repr, Fintype

/-- The numeric index of a piece type (its enum value). -/
def PieceType.toNat : PieceType → Nat
  | PieceType.pawn => 0
  | PieceType.knight => 1
  | PieceType.bishop => 2
  | PieceType.rook => 3
  | PieceType.queen => 4
  | PieceType.king => 5

/-- Rank of a square (0 = White's back rank). -/
def rankOf (s : Sq) : Int := (s.val : Int) / 8

/-- Column of a square in the bit layout (this is `7 - file`; files run
right-to-left per the spec's square convention). -/
def colOf (s : Sq) : Int := (s.val : Int) % 8

/-- Build a square from (rank, column) when both are on the board. -/
def mkSq (r k : Int) : Option Sq :=
  if h : 0 ≤ r ∧ r < 8 ∧ 0 ≤ k ∧ k < 8 then
    some ⟨(r * 8 + k).toNat, by omega⟩
  else none

/-- The set of on-board squares reached from `s` by the given
(rank, column) offsets. -/
def offsetSquares (s : Sq) (ds : List (Int × Int)) : SquareSet :=
  (ds.filterMap (fun d => mkSq (rankOf s + d.1) (colOf s + d.2))).toFinset

/-- `king_attack_tbl.look_up`: the 8 squares adjacent to `s`.  Modelled from
the spec (`table_generation.h` is not in the sources): standard king
geometry under the spec's square convention. -/
def kingAttack (s : Sq) : SquareSet :=
  offsetSquares s [(-1, -1), (-1, 0), (-1, 1), (0, -1), (0, 1), (1, -1), (1, 0), (1, 1)]

/-- `knight_attack_tbl.look_up`.  Modelled from the spec: standard knight
geometry. -/
def knightAttack (s : Sq) : SquareSet :=
  offsetSquares s [(-2, -1), (-2, 1), (-1, -2), (-1, 2), (1, -2), (1, 2), (2, -1), (2, 1)]

/-- `pawn_attack_tbl<c>.look_up`: squares a pawn of color `c` on `s` attacks.
Modelled from the spec: White pawns advance toward higher ranks.  Both
diagonals are column offsets ±1 (the file mirroring of the bit layout is
symmetric here). -/
def pawnAttack (c : Color) (s : Sq) : SquareSet :=
  match c with
  | Color.white => offsetSquares s [(1, -1), (1, 1)]
  | Color.black => offsetSquares s [(-1, -1), (-1, 1)]

/-- `pawn_push_tbl<c>.look_up(s, occ)`: single pushes not blocked by `occ`,
plus the double push from the pawn home rank when both squares are free.
Modelled from the spec. -/
def pawnPush (c : Color) (s : Sq) (occ : SquareSet) : SquareSet :=
  match c with
  | Color.white =>
      match mkSq (rankOf s + 1) (colOf s) with
      | none => ∅
      | some s1 =>
          if s1 ∈ occ then ∅
          else
            match (if rankOf s = 1 then mkSq (rankOf s + 2) (colOf s) else none) with
            | some s2 => if s2 ∈ occ then {s1} else {s1, s2}
            | none => {s1}
  | Color.black =>
      match mkSq (rankOf s - 1) (colOf s) with
      | none => ∅
      | some s1 =>
          if s1 ∈ occ then ∅
          else
            match (if rankOf s = 6 then mkSq (rankOf s - 2) (colOf s) else none) with
            | some s2 => if s2 ∈ occ then {s1} else {s1, s2}
            | none => {s1}

/-- Walk a sliding ray from `s` in direction `d`, collecting squares until a
member of `occ` is reached (the blocker square is included, as in magic
attack tables). -/
def rayWalk (occ : SquareSet) (d : Int × Int) : Nat → Int → Int → List Sq
  | 0, _, _ => []
  | fuel + 1, r, k =>
      match mkSq (r + d.1) (k + d.2) with
      | none => []
      | some s' =>
          if s' ∈ occ then [s']
          else s' :: rayWalk occ d fuel (r + d.1) (k + d.2)

/-- Union of the rays from `s` in the given directions, blocked by `occ`. -/
def slidingAttack (dirs : List (Int × Int)) (s : Sq) (occ : SquareSet) : SquareSet :=
  (dirs.flatMap (fun d => rayWalk occ d 8 (rankOf s) (colOf s))).toFinset

/-- `bishop_attack_tbl.look_up(s, occ)`.  Modelled from the spec: standard
diagonal sliding attacks. -/
def bishopAttack (s : Sq) (occ : SquareSet) : SquareSet :=
  slidingAttack [(-1, -1), (-1, 1), (1, -1), (1, 1)] s occ

/-- `rook_attack_tbl.look_up(s, occ)`.  Modelled from the spec: standard
orthogonal sliding attacks. -/
def rookAttack (s : Sq) (occ : SquareSet) : SquareSet :=
  slidingAttack [(-1, 0), (1, 0), (0, -1), (0, 1)] s occ

/-- `square_set::item()`: the single member of a (presumed singleton) set;
the least set bit of the 64-bit word.  Returns square 0 on the empty set. -/
def SquareSet.item (s : SquareSet) : Sq :=
  (((List.finRange 64).filter (· ∈ s)).headD ⟨0, by omega⟩)

/-- Square 0 (`square::from_index(0)`, the default en-passant field). -/
def sq0 : Sq := ⟨0, by omega⟩

/-- `explosion_mask(center)` from `board.cc`: the king ring of the centre
plus the centre itself. -/
def explosionMask (center : Sq) : SquareSet :=
  kingAttack center ∪ {center}

/-- `pawn_info<c>::last_rank`: the promotion rank of color `c`.  Modelled
from the spec's square convention. -/
def lastRank (c : Color) : SquareSet :=
  match c with
  | Color.white => (Finset.univ : Finset Sq).filter (fun s => 56 ≤ s.val)
  | Color.black => (Finset.univ : Finset Sq).filter (fun s => s.val ≤ 7)

/-- One side's piece planes (`man_.white` / `man_.black` in `board.h`,
modelled from the spec's data model `planes[color][piece_type]`). -/
structure SideManifest : Type where
  pawn : SquareSet
  knight : SquareSet
  bishop : SquareSet
  rook : SquareSet
  queen : SquareSet
  king : SquareSet
deriving DecidableEq

/-- `get_plane(pt)`. -/
def SideManifest.getPlane (m : SideManifest) : PieceType → SquareSet
  | PieceType.pawn => m.pawn
  | PieceType.knight => m.knight
  | PieceType.bishop => m.bishop
  | PieceType.rook => m.rook
  | PieceType.queen => m.queen
  | PieceType.king => m.king

/-- `all()`: the union of the side's planes. -/
def SideManifest.all (m : SideManifest) : SquareSet :=
  m.pawn ∪ m.knight ∪ m.bishop ∪ m.rook ∪ m.queen ∪ m.king

/-- `occ(sq)`: the piece type found on `sq`, scanning planes in enum order
(meaningful only on occupied squares; modelled from the spec since
`board.h` is not in the sources). -/
def SideManifest.occAt (m : SideManifest) (s : Sq) : PieceType :=
  if s ∈ m.pawn then PieceType.pawn
  else if s ∈ m.knight then PieceType.knight
  else if s ∈ m.bishop then PieceType.bishop
  else if s ∈ m.rook then PieceType.rook
  else if s ∈ m.queen then PieceType.queen
  else PieceType.king

/-- `remove_piece(pt, sq)`. -/
def SideManifest.removePiece (m : SideManifest) (pt : PieceType) (s : Sq) : SideManifest :=
  match pt with
  | PieceType.pawn => { m with pawn := m.pawn.erase s }
  | PieceType.knight => { m with knight := m.knight.erase s }
  | PieceType.bishop => { m with bishop := m.bishop.erase s }
  | PieceType.rook => { m with rook := m.rook.erase s }
  | PieceType.queen => { m with queen := m.queen.erase s }
  | PieceType.king => { m with king := m.king.erase s }

/-- `add_piece(pt, sq)`. -/
def SideManifest.addPiece (m : SideManifest) (pt : PieceType) (s : Sq) : SideManifest :=
  match pt with
  | PieceType.pawn => { m with pawn := insert s m.pawn }
  | PieceType.knight => { m with knight := insert s m.knight }
  | PieceType.bishop => { m with bishop := insert s m.bishop }
  | PieceType.rook => { m with rook := insert s m.rook }
  | PieceType.queen => { m with queen := insert s m.queen }
  | PieceType.king => { m with king := insert s m.king }

/-- Remove from every non-pawn plane of the side each square of `mask`:
the net effect of the per-plane blast-removal loops in `forward_`
(`board.cc` lines 1192-1213), which never touch the pawn planes. -/
def SideManifest.removeBlast (m : SideManifest) (mask : SquareSet) : SideManifest :=
  { m with
    knight := m.knight \ mask
    bishop := m.bishop \ mask
    rook := m.rook \ mask
    queen := m.queen \ mask
    king := m.king \ mask }

/-- One side's latent state: castling rights and the en-passant mask the
side's own double push created (`lat_.white` / `lat_.black`). -/
structure SideLatent : Type where
  oo : Bool
  ooo : Bool
  epMask : SquareSet
deriving DecidableEq

/-- The board: piece planes per side, latent state per side, ply count and
halfmove clock.  The side to move is the parity of `ply_count` (the spec's
`stm` field; `parse_fen` stores the FEN side in this parity and `fen()`
reads it back from `turn()`). -/
structure Board : Type where
  white : SideManifest
  black : SideManifest
  latWhite : SideLatent
  latBlack : SideLatent
  plyCount : Nat
  halfClock : Nat
deriving DecidableEq

/-- `man_.us<c>()`. -/
def Board.man (b : Board) : Color → SideManifest
  | Color.white => b.white
  | Color.black => b.black

/-- `lat_.us<c>()`. -/
def Board.lat (b : Board) : Color → SideLatent
  | Color.white => b.latWhite
  | Color.black => b.latBlack

/-- `turn()`: White to move iff the ply count is even. -/
def Board.turn (b : Board) : Bool := b.plyCount % 2 == 0

/-- The color of the side to move. -/
def Board.turnColor (b : Board) : Color :=
  if b.turn then Color.white else Color.black

/-- Occupancy of both sides, `man_.white.all() | man_.black.all()`. -/
def Board.occAll (b : Board) : SquareSet :=
  b.white.all ∪ b.black.all

/-- `move`: the packed move record of `move.h` (header not in the sources;
fields modelled from the spec's data model: from, to, piece, capture flag,
captured type, en-passant flag, ep capture square, promotion type).
`promotion = pawn` encodes "no promotion", matching the enum default 0. -/
structure Move : Type where
  fromSq : Sq
  toSq : Sq
  piece : PieceType
  isCapture : Bool
  captured : PieceType
  isEnpassant : Bool
  epSq : Sq
  promotion : PieceType
deriving DecidableEq

/-- The all-zero null move (`move::null()`). -/
def Move.null : Move :=
  { fromSq := ⟨0, by omega⟩, toSq := ⟨0, by omega⟩, piece := PieceType.pawn,
    isCapture := false, captured := PieceType.pawn, isEnpassant := false,
    epSq := ⟨0, by omega⟩, promotion := PieceType.pawn }

/-- `is_null()`. -/
def Move.isNull (m : Move) : Bool := m == Move.null

/-- `is_promotion()`: a promotion type is recorded. -/
def Move.isPromotion (m : Move) : Bool := m.promotion != PieceType.pawn

/-- `castle_info<c>` (header not in the sources; squares modelled from the
spec's square convention and standard castling rules). -/
structure CastleInfo : Type where
  startKing : Sq
  ooRook : Sq
  oooRook : Sq
  afterOoKing : Sq
  afterOoRook : Sq
  afterOooKing : Sq
  afterOooRook : Sq
  ooMask : SquareSet
  oooOccMask : SquareSet
  oooDangerMask : SquareSet

/-- White: king e1 = 3, h-rook h1 = 0, a-rook a1 = 7 under
`sq = rank*8 + (7 - file)`. -/
def castleInfoWhite : CastleInfo :=
  { startKing := ⟨3, by omega⟩, ooRook := ⟨0, by omega⟩, oooRook := ⟨7, by omega⟩,
    afterOoKing := ⟨1, by omega⟩, afterOoRook := ⟨2, by omega⟩,
    afterOooKing := ⟨5, by omega⟩, afterOooRook := ⟨4, by omega⟩,
    ooMask := {⟨1, by omega⟩, ⟨2, by omega⟩},
    oooOccMask := {⟨4, by omega⟩, ⟨5, by omega⟩, ⟨6, by omega⟩},
    oooDangerMask := {⟨4, by omega⟩, ⟨5, by omega⟩} }

/-- Black: the same squares shifted to rank 7. -/
def castleInfoBlack : CastleInfo :=
  { startKing := ⟨59, by omega⟩, ooRook := ⟨56, by omega⟩, oooRook := ⟨63, by omega⟩,
    afterOoKing := ⟨57, by omega⟩, afterOoRook := ⟨58, by omega⟩,
    afterOooKing := ⟨61, by omega⟩, afterOooRook := ⟨60, by omega⟩,
    ooMask := {⟨57, by omega⟩, ⟨58, by omega⟩},
    oooOccMask := {⟨60, by omega⟩, ⟨61, by omega⟩, ⟨62, by omega⟩},
    oooDangerMask := {⟨60, by omega⟩, ⟨61, by omega⟩} }

/-- `castle_info<c>`. -/
def castleInfo : Color → CastleInfo
  | Color.white => castleInfoWhite
  | Color.black => castleInfoBlack

/-- `is_castle_oo<c>()`: a king move from the start king square to the
kingside rook square (moves are encoded king-takes-rook). -/
def Move.isCastleOO (c : Color) (m : Move) : Bool :=
  m.piece == PieceType.king && m.fromSq == (castleInfo c).startKing && m.toSq == (castleInfo c).ooRook

/-- `is_castle_ooo<c>()`. -/
def Move.isCastleOOO (c : Color) (m : Move) : Bool :=
  m.piece == PieceType.king && m.fromSq == (castleInfo c).startKing && m.toSq == (castleInfo c).oooRook

/-- `is_pawn_double<c>()`: a two-square pawn advance. -/
def Move.isPawnDouble (c : Color) (m : Move) : Bool :=
  match c with
  | Color.white => m.piece == PieceType.pawn && m.toSq.val == m.fromSq.val + 16
  | Color.black => m.piece == PieceType.pawn && m.fromSq.val == m.toSq.val + 16

/-- `is_noisy()`: captures, en passant and queen promotions (the spec's
noisy classification; under-promotions are quiet). -/
def Move.isNoisy (m : Move) : Bool :=
  m.isCapture || m.isEnpassant || m.promotion == PieceType.queen

/-- Update one side's manifest inside the board. -/
def Board.setMan (b : Board) (c : Color) (m : SideManifest) : Board :=
  match c with
  | Color.white => { b with white := m }
  | Color.black => { b with black := m }

/-- Update one side's latent state inside the board. -/
def Board.setLat (b : Board) (c : Color) (l : SideLatent) : Board :=
  match c with
  | Color.white => { b with latWhite := l }
  | Color.black => { b with latBlack := l }

/-- `board::forward_<c>` (`board.cc` lines 1134-1229): the successor board.
Null moves return early after bumping `ply_count` and `half_clock`;
otherwise the mover is lifted from its origin, castles relocate king and
rook, other moves place the (possibly promoted) piece; a double push may
set the en-passant mask; castling rights are forfeited; captures and
en passant remove the captured man, remove the capturing piece from its
destination, and erase every non-pawn piece of either color inside the
explosion mask; finally rook-home castling rights are re-checked, the
opponent's en-passant mask is cleared and the counters advance. -/
def forwardC (c : Color) (b : Board) (mv : Move) : Board :=
  if mv.isNull then { b with plyCount := b.plyCount + 1, halfClock := b.halfClock + 1 }
  else
    let ci := castleInfo c
    let isCastleQ := mv.isCastleOOO c
    let isCastleK := mv.isCastleOO c
    let placed := if isCastleQ || isCastleK then mv.piece
                  else if mv.isPromotion then mv.promotion else mv.piece
    let us0 := (b.man c).removePiece mv.piece mv.fromSq
    let us1 :=
      if isCastleQ then
        ((us0.removePiece PieceType.rook ci.oooRook).addPiece PieceType.king
            ci.afterOooKing).addPiece PieceType.rook ci.afterOooRook
      else if isCastleK then
        ((us0.removePiece PieceType.rook ci.ooRook).addPiece PieceType.king
            ci.afterOoKing).addPiece PieceType.rook ci.afterOoRook
      else us0.addPiece placed mv.toSq
    let latUs1 :=
      if isCastleQ || isCastleK then { b.lat c with oo := false, ooo := false } else b.lat c
    let latUs2 :=
      if mv.isPawnDouble c then
        let ep := (pawnPush (opponent c) mv.toSq ∅).item
        if ((b.man (opponent c)).pawn ∩ pawnAttack c ep).Nonempty then
          { latUs1 with epMask := {ep} }
        else latUs1
      else latUs1
    let latUs3 :=
      if mv.fromSq = ci.startKing then { latUs2 with oo := false, ooo := false } else latUs2
    let latUs4 := if mv.fromSq = ci.ooRook then { latUs3 with oo := false } else latUs3
    let latUs5 := if mv.fromSq = ci.oooRook then { latUs4 with ooo := false } else latUs4
    let them0 := b.man (opponent c)
    let usThem :=
      if mv.isCapture || mv.isEnpassant then
        let center := if mv.isEnpassant then mv.epSq else mv.toSq
        let themA := if mv.isEnpassant then them0.removePiece PieceType.pawn mv.epSq
                     else them0.removePiece mv.captured mv.toSq
        let usA := us1.removePiece placed mv.toSq
        let blast := explosionMask center
        (usA.removeBlast blast, themA.removeBlast blast)
      else (us1, them0)
    let b1 := ((b.setMan c usThem.1).setMan (opponent c) usThem.2).setLat c latUs5
    let lw0 := b1.latWhite
    let lw1 := if lw0.oo ∧ castleInfoWhite.ooRook ∉ b1.white.rook then
                 { lw0 with oo := false } else lw0
    let lw2 := if lw1.ooo ∧ castleInfoWhite.oooRook ∉ b1.white.rook then
                 { lw1 with ooo := false } else lw1
    let lb0 := b1.latBlack
    let lb1 := if lb0.oo ∧ castleInfoBlack.ooRook ∉ b1.black.rook then
                 { lb0 with oo := false } else lb0
    let lb2 := if lb1.ooo ∧ castleInfoBlack.oooRook ∉ b1.black.rook then
                 { lb1 with ooo := false } else lb1
    let b2 := { b1 with latWhite := lw2, latBlack := lb2 }
    let latThem0 := b2.lat (opponent c)
    let latThem1 :=
      if mv.toSq = (castleInfo (opponent c)).ooRook then { latThem0 with oo := false }
      else latThem0
    let latThem2 :=
      if mv.toSq = (castleInfo (opponent c)).oooRook then { latThem1 with ooo := false }
      else latThem1
    let b3 := b2.setLat (opponent c) { latThem2 with epMask := ∅ }
    { b3 with plyCount := b3.plyCount + 1,
              halfClock := if mv.isCapture || mv.piece == PieceType.pawn then 0
                           else b3.halfClock + 1 }

/-- `board::forward`: dispatch on the side to move. -/
def Board.forward (b : Board) (mv : Move) : Board :=
  forwardC b.turnColor b mv

/-- `attack_to<attacker>` (`board.cc` lines 39-52): the squares from which a
piece of `attacker` attacks `tgt` under occupancy `occ`; king attackers are
skipped because king captures are illegal in atomic. -/
def attackTo (attacker : Color) (b : Board) (tgt : Sq) (occ : SquareSet) : SquareSet :=
  let us := b.man attacker
  let diag := bishopAttack tgt occ
  let ortho := rookAttack tgt occ
  (pawnAttack (opponent attacker) tgt ∩ us.pawn) ∪ (knightAttack tgt ∩ us.knight) ∪
    (diag ∩ (us.bishop ∪ us.queen)) ∪ (ortho ∩ (us.rook ∪ us.queen))

/-- `board::checkers<c>(occ)` (`board.cc` lines 250-271): the pieces giving
direct check to `c`'s king, together with the union of the checking rays. -/
def checkersOf (c : Color) (b : Board) (occ : SquareSet) : SquareSet × SquareSet :=
  if ¬(b.man c).king.Nonempty then (∅, ∅)
  else
    let ks := (b.man c).king.item
    let bCheckMask := bishopAttack ks occ
    let rCheckMask := rookAttack ks occ
    let nCheckMask := knightAttack ks
    let pCheckMask := pawnAttack c ks
    let qCheckMask := bCheckMask ∪ rCheckMask
    let them := b.man (opponent c)
    let bCheckers := bCheckMask ∩ (them.bishop ∪ them.queen)
    let rCheckers := rCheckMask ∩ (them.rook ∪ them.queen)
    let rays := (bCheckers.sup fun sq => bishopAttack sq occ ∩ bCheckMask) ∪
                (rCheckers.sup fun sq => rookAttack sq occ ∩ rCheckMask)
    let checkers := (bCheckMask ∩ them.bishop ∩ occ) ∪ (rCheckMask ∩ them.rook ∩ occ) ∪
                    (nCheckMask ∩ them.knight ∩ occ) ∪ (pCheckMask ∩ them.pawn ∩ occ) ∪
                    (qCheckMask ∩ them.queen ∩ occ)
    (checkers, rays)

/-- A `generation_mode`: which move classes the mode accepts. -/
structure GenMode : Type where
  noisy : Bool
  quiet : Bool
  check : Bool
deriving DecidableEq

/-- `generation_mode::all`. -/
def modeAll : GenMode := { noisy := true, quiet := true, check := true }

/-- `board::is_legal_<c, mode>` (`board.cc` lines 762-904).  Castles get a
dedicated branch; other moves are validated against the move record, the
attack tables, the promotion rules and the mode, then any capture whose
blast would contain the mover's own king is rejected, and finally the
successor position must leave the mover's king alive and (when both kings
survive and do not touch) free of direct check. -/
def legalFromToOf (c : Color) (b : Board) (mv : Move) : Bool :=
  match mv.piece with
  | PieceType.pawn =>
      if mv.isCapture then decide (mv.toSq ∈ pawnAttack c mv.fromSq)
      else decide (mv.toSq ∈ pawnPush c mv.fromSq b.occAll)
  | PieceType.knight => decide (mv.toSq ∈ knightAttack mv.fromSq)
  | PieceType.bishop => decide (mv.toSq ∈ bishopAttack mv.fromSq b.occAll)
  | PieceType.rook => decide (mv.toSq ∈ rookAttack mv.fromSq b.occAll)
  | PieceType.queen =>
      decide (mv.toSq ∈ bishopAttack mv.fromSq b.occAll ∪ rookAttack mv.fromSq b.occAll)
  | PieceType.king =>
      if mv.isCapture then false
      else if mv.isCastleOO c then
        decide ((b.lat c).oo ∧ ((castleInfo c).ooMask ∩ b.occAll) = ∅ ∧
          (castleInfo c).startKing ∈ (b.man c).king ∧
          (castleInfo c).ooRook ∈ (b.man c).rook)
      else if mv.isCastleOOO c then
        decide ((b.lat c).ooo ∧ ((castleInfo c).oooOccMask ∩ b.occAll) = ∅ ∧
          (castleInfo c).startKing ∈ (b.man c).king ∧
          (castleInfo c).oooRook ∈ (b.man c).rook)
      else decide (mv.toSq ∈ kingAttack mv.fromSq)

def isLegalC (c : Color) (mode : GenMode) (b : Board) (mv : Move) : Bool :=
  if ¬(b.man c).king.Nonempty then false
  else if mv.isCastleOO c || mv.isCastleOOO c then
    if mv.isCapture || mv.isEnpassant || mv.isPromotion then false
    else if mv.fromSq ≠ (castleInfo c).startKing then false
    else if mv.isCastleOO c ∧ mv.toSq ≠ (castleInfo c).ooRook then false
    else if ¬mv.isCastleOO c ∧ mv.toSq ≠ (castleInfo c).oooRook then false
    else if (castleInfo c).startKing ∉ (b.man c).king then false
    else if mv.isCastleOO c ∧ (castleInfo c).ooRook ∉ (b.man c).rook then false
    else if ¬mv.isCastleOO c ∧ (castleInfo c).oooRook ∉ (b.man c).rook then false
    else if mv.isCastleOO c ∧ ¬(b.lat c).oo then false
    else if ¬mv.isCastleOO c ∧ ¬(b.lat c).ooo then false
    else if mv.isCastleOO c ∧ ((castleInfo c).ooMask ∩ b.occAll).Nonempty then false
    else if ¬mv.isCastleOO c ∧ ((castleInfo c).oooOccMask ∩ b.occAll).Nonempty then false
    else if (checkersOf c b b.occAll).1.Nonempty then false
    else if ∃ sq ∈ (if mv.isCastleOO c then (castleInfo c).ooMask
        else (castleInfo c).oooDangerMask), (attackTo (opponent c) b sq b.occAll).Nonempty then
      false
    else if ¬((forwardC c b mv).man c).king.Nonempty ∧
        ¬¬((forwardC c b mv).man (opponent c)).king.Nonempty then false
    else if ¬¬((forwardC c b mv).man (opponent c)).king.Nonempty ∧
        ¬¬((forwardC c b mv).man c).king.Nonempty ∧
        (checkersOf c (forwardC c b mv) (forwardC c b mv).occAll).1.Nonempty then false
    else true
  else
    if mv.fromSq ∉ (b.man c).all then false
    else if mv.toSq ∈ (b.man c).all then false
    else if mv.piece ≠ (b.man c).occAt mv.fromSq then false
    else if mv.isCapture ≠ (decide (mv.toSq ∈ (b.man (opponent c)).all) || mv.isEnpassant) then
      false
    else if ¬mv.isCapture ∧ mv.captured ≠ PieceType.pawn then false
    else if mv.isCapture ∧ ¬mv.isEnpassant ∧
        (mv.toSq ∉ (b.man (opponent c)).all ∨
         mv.captured ≠ (b.man (opponent c)).occAt mv.toSq) then false
    else if ¬mv.isEnpassant ∧ mv.epSq ≠ sq0 then false
    else if mv.isEnpassant ∧
        (¬(b.lat (opponent c)).epMask.Nonempty ∨
         mv.toSq ∉ (b.lat (opponent c)).epMask ∨
         mv.epSq ≠ (pawnPush (opponent c) mv.toSq ∅).item ∨
         (pawnPush (opponent c) mv.toSq ∅).item ∉ (b.man (opponent c)).pawn) then false
    else if ¬legalFromToOf c b mv then false
    else if mv.isPromotion ∧
        (mv.piece ≠ PieceType.pawn ∨ mv.toSq ∉ lastRank c ∨
         mv.promotion = PieceType.pawn ∨ mv.promotion = PieceType.king) then false
    else if ¬mv.isPromotion ∧ mv.piece = PieceType.pawn ∧ mv.toSq ∈ lastRank c then false
    else if ¬mode.noisy ∧ mv.isNoisy then false
    else if ¬mode.quiet ∧ ¬mv.isNoisy then false
    else if (mv.isCapture ∨ mv.isEnpassant) ∧
        ((explosionMask (if mv.isEnpassant then (pawnPush (opponent c) mv.toSq ∅).item
            else mv.toSq)) ∩ (b.man c).king).Nonempty then false
    else if ¬((forwardC c b mv).man c).king.Nonempty ∧
        ¬¬((forwardC c b mv).man (opponent c)).king.Nonempty then false
    else if ¬¬((forwardC c b mv).man (opponent c)).king.Nonempty ∧
        ¬¬((forwardC c b mv).man c).king.Nonempty then
      if ¬(((forwardC c b mv).man c).king.Nonempty ∧
            ((forwardC c b mv).man (opponent c)).king.Nonempty ∧
            ((forwardC c b mv).man (opponent c)).king.item ∈
              kingAttack (((forwardC c b mv).man c).king.item)) ∧
          (checkersOf c (forwardC c b mv) (forwardC c b mv).occAll).1.Nonempty then false
      else true
    else true

/-- `board::is_legal<mode>`: dispatch on the side to move. -/
def Board.isLegal (b : Board) (mode : GenMode) (mv : Move) : Bool :=
  isLegalC b.turnColor mode b mv

/-- The SEE piece values of `board::see_ge_` (and of `see_example.h`):
`P=100, N=450, B=450, R=650, Q=1250, K=0`. -/
def seeValue : PieceType → Int
  | PieceType.pawn => 100
  | PieceType.knight => 450
  | PieceType.bishop => 450
  | PieceType.rook => 650
  | PieceType.queen => 1250
  | PieceType.king => 0

/-- `score_mate` of `see_ge_`. -/
def scoreMate : Int := 1000000

/-- `piece_at_unchecked` (`board.cc` lines 35-37). -/
def pieceAtUnchecked (b : Board) (s : Sq) : PieceType :=
  if s ∈ b.white.all then b.white.occAt s else b.black.occAt s

/-- The ascending-square minimum of `seeValue` over the non-king attackers,
starting from `score_mate`: the scan loop of `see_ge_`'s quiet branch
(`board.cc` lines 1044-1050). -/
def minAttackerValue (next : Board) (attackers : SquareSet) : Int :=
  ((attackers.filter fun s => pieceAtUnchecked next s ≠ PieceType.king).sort (· ≤ ·)).foldl
    (fun acc s => min acc (seeValue (pieceAtUnchecked next s))) scoreMate

/-- `board::see_ge_<c>` (`board.cc` lines 961-1090).  Null moves pass;
captures score the blast around the capture centre (the `boom` set also
contains the destination square) with mate overrides when a king lies in
it; castles compare `0` to the threshold; quiet moves look for the least
valuable recapturer of the destination in the successor position and score
the hypothetical recapture blast. -/
def seeGeC (c : Color) (b : Board) (mv : Move) (threshold : Int) : Bool :=
  if mv.isNull then true
  else
    let thr := threshold
    let isCapture := mv.isCapture || mv.isEnpassant
    let isCastle := mv.isCastleOO c || mv.isCastleOOO c
    if isCapture ∧ ¬isCastle then
      let explosionCenter :=
        if mv.isEnpassant then (pawnPush (opponent c) mv.toSq ∅).item else mv.toSq
      let score0 : Int := if mv.isEnpassant then seeValue PieceType.pawn
                          else seeValue mv.captured
      let piecesExploded : SquareSet := {mv.toSq}
      let pawnsAll := b.white.pawn ∪ b.black.pawn
      let explosionArea := explosionMask explosionCenter \ pawnsAll
      let boom := explosionArea ∪ piecesExploded
      if (boom ∩ (b.man c).king).Nonempty then decide (-scoreMate ≥ thr)
      else if (boom ∩ (b.man (opponent c)).king).Nonempty then decide (scoreMate ≥ thr)
      else
        let boomUs := boom ∩ (b.man c).all
        let boomThem := boom ∩ (b.man (opponent c)).all
        let score := score0 - boomUs.sum (fun s => seeValue (pieceAtUnchecked b s)) +
                     boomThem.sum (fun s => seeValue (pieceAtUnchecked b s))
        decide (score ≥ thr)
    else if isCastle then decide ((0 : Int) ≥ thr)
    else
      let next := forwardC c b mv
      let occAfter := next.occAll
      let attackers := attackTo (opponent c) next mv.toSq occAfter
      if ¬attackers.Nonempty then decide ((0 : Int) ≥ thr)
      else
        let minAttacker := minAttackerValue next attackers
        if minAttacker = scoreMate then decide ((0 : Int) ≥ thr)
        else
          let ourMovedPiece := if mv.isPromotion then mv.promotion else mv.piece
          let result0 := minAttacker - seeValue ourMovedPiece
          let pawnsAllAfter := next.white.pawn ∪ next.black.pawn
          let explosionArea := explosionMask mv.toSq \ pawnsAllAfter
          let boom := explosionArea ∪ {mv.toSq}
          if (boom ∩ (next.man c).king).Nonempty then decide (-scoreMate ≥ thr)
          else if (boom ∩ (next.man (opponent c)).king).Nonempty then decide ((0 : Int) ≥ thr)
          else
            let boomUs := boom ∩ (next.man c).all
            let boomThem := boom ∩ (next.man (opponent c)).all
            let result := result0 - boomUs.sum (fun s => seeValue (pieceAtUnchecked next s)) +
                          boomThem.sum (fun s => seeValue (pieceAtUnchecked next s))
            decide (result ≥ thr)

/-- `board::see_ge`: dispatch on the side to move. -/
def Board.seeGe (b : Board) (mv : Move) (t : Int) : Bool :=
  seeGeC b.turnColor b mv t

/-- `board::see_gt(mv, t) = see_ge(mv, t + 1)` (`board.cc` lines 1097-1100). -/
def Board.seeGt (b : Board) (mv : Move) (t : Int) : Bool :=
  b.seeGe mv (t + 1)

/-- `stormphrax::see::gain` from `see_example.h` (lines 90-134), the repo's
reference Atomic SEE for captures, stated over the same board model:
`fromTo = {dst, src}` (only `{src}` for en passant, which instead banks the
captured pawn's value up front), `boom = (kingAttacks(dst) \ pawns) ∪ fromTo`,
`±ScoreMate` when a king lies in `boom`, otherwise the signed sum of the
exploded piece values. -/
def gainExample (b : Board) (us : Color) (mv : Move) : Int :=
  let them := opponent us
  let fromTo : SquareSet := if mv.isEnpassant then {mv.fromSq} else {mv.toSq, mv.fromSq}
  let score0 : Int := if mv.isEnpassant then seeValue PieceType.pawn else 0
  let boom := (kingAttack mv.toSq \ (b.white.pawn ∪ b.black.pawn)) ∪ fromTo
  if (boom ∩ (b.man us).king).Nonempty then -scoreMate
  else if (boom ∩ (b.man them).king).Nonempty then scoreMate
  else
    score0 - (boom ∩ (b.man us).all).sum (fun s => seeValue (pieceAtUnchecked b s)) +
      (boom ∩ (b.man them).all).sum (fun s => seeValue (pieceAtUnchecked b s))

/-- The capture branch of `stormphrax::see::gain_atomic` (`see_example.h`
lines 249-254): `gain(boards, move) - 1`, the unconditional tie-break
subtraction the spec describes. -/
def gainAtomicCapture (b : Board) (us : Color) (mv : Move) : Int :=
  gainExample b us mv - 1

/-- `square_index` from `include/eval/nnue/coords.h`: flips the file of the
square index (`idx ^ 7`). -/
def squareIndex (sq : Sq) : Nat := sq.val ^^^ 7

/-- `flip_rank_index` from `coords.h` (`idx ^ 0x38`). -/
def flipRankIndex (idx : Nat) : Nat := idx ^^^ 0x38

/-- `feature_square_index` from `coords.h`: flip the file, and for the black
perspective also flip the rank. -/
def featureSquareIndex (sq : Sq) (perspective : Color) : Nat :=
  let idx := squareIndex sq
  if perspective = Color.black then flipRankIndex idx else idx

/-- `NnueState::featureIndex` (`include/eval/nnue.h` lines 294-303),
parameterized by the `InputFeatureSet` bucket function and by `InputSize`
(both fixed in `arch.h`, which is not in the sources). -/
def featureIndex (getBucket : Color → Sq → Nat) (inputSize : Nat)
    (perspective pieceColor : Color) (piece : PieceType) (sq king : Sq) : Nat :=
  let colorStride : Nat := 64 * 6
  let pieceStride : Nat := 64
  let type := piece.toNat
  let color : Nat := if pieceColor = perspective then 0 else 1
  let bucketOffset := getBucket perspective king * inputSize
  bucketOffset + color * colorStride + type * pieceStride + featureSquareIndex sq perspective

/-- The modulus of `usize` (64-bit unsigned) arithmetic. -/
def u64Mod : Nat := 2 ^ 64

/-- Unsigned 64-bit subtraction `a - b` with wraparound. -/
def usub (a b : Nat) : Nat := (a % u64Mod + (u64Mod - b % u64Mod)) % u64Mod

/-- `PaddedParamStream<64>::calcPadding(v)` (`include/eval/nnue/io.h` lines
114-116): `v - ((v + BlockSize - 1) / BlockSize) * BlockSize` with
`BlockSize = 64`, every operation in `usize` arithmetic. -/
def calcPadding (v : Nat) : Nat :=
  let v' := v % u64Mod
  let q := ((v' + 63) % u64Mod) / 64
  usub v' ((q * 64) % u64Mod)

/-- The number of bytes `PaddedParamStream<64>::read`/`write` consume or
emit for an `n`-byte parameter block: the block itself plus the computed
padding (`io.h` lines 85-112). -/
def paddedStreamBytes (n : Nat) : Nat := (n % u64Mod + calcPadding n) % u64Mod

/-- One call against the `NnueState` accumulator stack pointer. -/
inductive NnueOp : Type where
  | update : Bool → NnueOp
  | pop : NnueOp
deriving DecidableEq, Repr

/-- The effect of `NnueState::update<Push>` on the stack index
(`nnue.h` lines 117-206): `Push` moves `curr_` to the next slot, otherwise
it writes in place; nothing clamps the top (only an `assert`). -/
def nnueUpdateIdx (push : Bool) (i : Int) : Int := if push then i + 1 else i

/-- The effect of `NnueState::pop` on the stack index (`nnue.h` lines
208-212): decrement only when strictly above the stack base. -/
def nnuePop (i : Int) : Int := if 0 < i then i - 1 else i

/-- Run a sequence of `update`/`pop` calls against the stack index. -/
def applyNnueOps (ops : List NnueOp) (i : Int) : Int :=
  ops.foldl (fun j op =>
    match op with
    | NnueOp.update p => nnueUpdateIdx p j
    | NnueOp.pop => nnuePop j) i

/-- A material signature: the twelve piece counts, `wP .. bK`. -/
structure MaterialSig : Type where
  wP : Nat
  wN : Nat
  wB : Nat
  wR : Nat
  wQ : Nat
  wK : Nat
  bP : Nat
  bN : Nat
  bB : Nat
  bR : Nat
  bQ : Nat
  bK : Nat
deriving DecidableEq, Repr

/-- `material_from_board`: the board's material signature. -/
def materialFromBoard (b : Board) : MaterialSig :=
  { wP := b.white.pawn.card, wN := b.white.knight.card, wB := b.white.bishop.card,
    wR := b.white.rook.card, wQ := b.white.queen.card, wK := b.white.king.card,
    bP := b.black.pawn.card, bN := b.black.knight.card, bB := b.black.bishop.card,
    bR := b.black.rook.card, bQ := b.black.queen.card, bK := b.black.king.card }

/-- The WDL outcome of a tablebase probe. -/
inductive WDL : Type where
  | Loss : WDL
  | Draw : WDL
  | Win : WDL
deriving DecidableEq, Repr

/-- `atomic_tb::ProbeResult`. -/
structure ProbeResult : Type where
  wdl : WDL
  dtz : Int
deriving DecidableEq, Repr

/-- The readiness flags a loaded table carries after
`atomic_syzygy_core::init` (`wdl_ready` and a non-null `wdl_pairs[0]`). -/
structure TBTable : Type where
  wdlReady : Bool
  hasPairs0 : Bool
deriving DecidableEq, Repr

/-- The loader state: `g_inited` plus the signature-to-table index built by
`init` (`g_key_to_table` / `g_tables`). -/
structure TBState : Type where
  inited : Bool
  tableOf : List (MaterialSig × TBTable)
deriving DecidableEq, Repr

/-- `atomic_syzygy_core::probe_wdl` (`atomic_syzygy_core.cc` lines 560-573):
look up the board's material signature; even when the table is loaded and
ready, the index/Huffman decoder is unimplemented (the `TODO` comment) and
the function returns `false` unconditionally. -/
def coreProbeWdl (st : TBState) (b : Board) : Bool :=
  if ¬st.inited then false
  else
    match st.tableOf.find? (fun e => e.1 == materialFromBoard b) with
    | none => false
    | some e => if ¬e.2.wdlReady ∨ ¬e.2.hasPairs0 then false else false

/-- `num_pieces()`. -/
def Board.numPieces (b : Board) : Nat := b.white.all.card + b.black.all.card

/-- The total number of slots `board_to_tbpos` fills: one per member of each
piece plane. -/
def totalPlaneCount (b : Board) : Nat :=
  b.white.pawn.card + b.white.knight.card + b.white.bishop.card + b.white.rook.card +
    b.white.queen.card + b.white.king.card + b.black.pawn.card + b.black.knight.card +
    b.black.bishop.card + b.black.rook.card + b.black.queen.card + b.black.king.card

/-- `atomic_tb::probe_wdl` (`atomic_tbprobe.cc` lines 87-96): the board must
convert to a ≤6-man TB position with exactly one king per side; the stub
then pre-fills `out.wdl = Draw` but returns the result of
`atomic_syzygy_core::probe_wdl`.  `none` models returning `false`. -/
def tbProbeWdl (st : TBState) (b : Board) : Option ProbeResult :=
  if 6 < b.numPieces then none
  else if ¬(b.white.king.card = 1 ∧ b.black.king.card = 1) then none
  else if ¬(totalPlaneCount b = b.numPieces) then none
  else if coreProbeWdl st b then some { wdl := WDL.Draw, dtz := -1 } else none

/-- The numeric value of a digit string. -/
def digitsVal (cs : List Char) : Nat :=
  cs.foldl (fun a c => a * 10 + (c.toNat - 48)) 0

/-- `std::stol`: skip leading whitespace, read an optional sign and at least
one digit; no digits means the call throws (`none`), which inside the
`noexcept` `parse_fen` terminates the program. -/
def stol (s : List Char) : Option Int :=
  let cs := s.dropWhile (fun ch => ch = ' ')
  match cs with
  | [] => none
  | c :: rest =>
      let signed : Bool × List Char :=
        if c = '-' then (true, rest)
        else if c = '+' then (false, rest)
        else (false, c :: rest)
      let digits := signed.2.takeWhile Char.isDigit
      if digits = [] then none
      else if signed.1 then some (-(digitsVal digits : Int)) else some (digitsVal digits : Int)

/-- Split a character list at a separator, keeping empty segments, as
`std::getline` with a delimiter does. -/
def splitOnChar (sep : Char) : List Char → List (List Char)
  | [] => [[]]
  | c :: rest =>
      let r := splitOnChar sep rest
      if c = sep then [] :: r
      else
        match r with
        | [] => [[c]]
        | a :: as => (c :: a) :: as

/-- `operator>>` on a whitespace-separated stream: the `k`-th token, or the
empty token when the stream is exhausted (a failed extraction leaves the
target string empty). -/
def streamToken (s : List Char) (k : Nat) : List Char :=
  ((splitOnChar (' ') s).filter (fun t => ¬t.isEmpty)).getD k []

/-- `color_from`: uppercase FEN letters are White.  Modelled from the spec
(`chess/types.h` is not in the sources). -/
def colorFrom (ch : Char) : Color :=
  if ch.isUpper then Color.white else Color.black

/-- `type_from`: the piece type of a FEN letter.  Modelled from the spec. -/
def typeFrom (ch : Char) : PieceType :=
  let l := ch.toLower
  if l = 'p' then PieceType.pawn
  else if l = 'n' then PieceType.knight
  else if l = 'b' then PieceType.bishop
  else if l = 'r' then PieceType.rook
  else if l = 'q' then PieceType.queen
  else PieceType.king

/-- `tbl_square{file_idx, rank_idx}.rotated()` as a square index: FEN rank 0
is the eighth rank, so the square is `(7 - rank)*8 + (7 - file)` under the
spec's convention. -/
def fenSquare (fileIdx rankIdx : Nat) : Option Sq :=
  if h : fileIdx < 8 ∧ rankIdx < 8 then
    some ⟨(7 - rankIdx) * 8 + (7 - fileIdx), by omega⟩
  else none

/-- Place one FEN rank's characters onto the board, advancing the file. -/
def placeRank : Board → Nat → Nat → List Char → Board
  | bd, _, _, [] => bd
  | bd, rankIdx, fileIdx, ch :: rest =>
      if ch.isDigit then placeRank bd rankIdx (fileIdx + (ch.toNat - 48)) rest
      else
        let side := colorFrom ch
        let ty := typeFrom ch
        let bd' :=
          match fenSquare fileIdx rankIdx with
          | some sq => bd.setMan side ((bd.man side).addPiece ty sq)
          | none => bd
        placeRank bd' rankIdx (fileIdx + 1) rest

/-- Place all ranks of the FEN body. -/
def placeBody (bd : Board) (ranks : List (List Char)) : Board :=
  (ranks.enum).foldl (fun acc p => placeRank acc p.1 0 p.2) bd

/-- The empty side manifest. -/
def emptySideManifest : SideManifest :=
  { pawn := ∅, knight := ∅, bishop := ∅, rook := ∅, queen := ∅, king := ∅ }

/-- The default-constructed board `board()`. -/
def emptyBoard : Board :=
  { white := emptySideManifest, black := emptySideManifest,
    latWhite := { oo := false, ooo := false, epMask := ∅ },
    latBlack := { oo := false, ooo := false, epMask := ∅ },
    plyCount := 0, halfClock := 0 }

/-- `tbl_square::from_name`: a two-character square name such as `e3`. -/
def tblSquareFromName (s : List Char) : Option Sq :=
  match s with
  | [f, r] =>
      let fileIdx := f.toNat - 97
      let rankIdx := r.toNat - 49
      if h : fileIdx < 8 ∧ rankIdx < 8 then
        some ⟨rankIdx * 8 + (7 - fileIdx), by omega⟩
      else none
  | _ => none

/-- `board::parse_fen` (`board.cc` lines 1314-1356): extract the six fields
(missing trailing fields extract as empty strings), place the body, set the
castling rights, then call `std::stol` on the halfmove token, set the
en-passant mask from the fourth field, and derive `ply_count` from
`std::stol` of the fullmove token.  A `std::stol` failure (e.g. an empty
token) throws inside this `noexcept` function and terminates the program;
that abort is modelled as `none`. -/
def parseFen (fen : String) : Option Board :=
  let cs := fen.toList
  let body := streamToken cs 0
  let side := streamToken cs 1
  let castle := streamToken cs 2
  let epSq := streamToken cs 3
  let halfClock := streamToken cs 4
  let moveCount := streamToken cs 5
  let bd0 := placeBody emptyBoard (splitOnChar ('/') body)
  let bd1 := { bd0 with
    latWhite := { bd0.latWhite with
      oo := castle.contains ('K'), ooo := castle.contains ('Q') }
    latBlack := { bd0.latBlack with
      oo := castle.contains ('k'), ooo := castle.contains ('q') } }
  match stol halfClock with
  | none => none
  | some hc =>
      let bd2 := { bd1 with halfClock := hc.toNat }
      let bd3 :=
        if epSq ≠ [('-')] then
          match tblSquareFromName epSq with
          | some sq =>
              if side = [('w')] then
                { bd2 with latBlack := { bd2.latBlack with epMask := {sq} } }
              else
                { bd2 with latWhite := { bd2.latWhite with epMask := {sq} } }
          | none => bd2
        else bd2
      match stol moveCount with
      | none => none
      | some mc =>
          some { bd3 with
            plyCount := (2 * (mc - 1) + (if side = [('w')] then 0 else 1)).toNat }

/-
  Concrete positions used by the theorems below.
-/

/-- A move record: the knight on d1 (square 4) captures the enemy knight on
b2 (square 14). -/
def knightTakesB2 : Move :=
  { fromSq := ⟨4, by omega⟩, toSq := ⟨14, by omega⟩, piece := PieceType.knight,
    isCapture := true, captured := PieceType.knight, isEnpassant := false,
    epSq := ⟨0, by omega⟩, promotion := PieceType.pawn }

/-- White: Nd1 (4), Kh1 (0); Black: Nb2 (14), Kh8 (56); White to move.
Both kings are outside the blast of b2. -/
def seeBugBoard : Board :=
  { white := { pawn := ∅, knight := {⟨4, by omega⟩}, bishop := ∅, rook := ∅,
               queen := ∅, king := {⟨0, by omega⟩} },
    black := { pawn := ∅, knight := {⟨14, by omega⟩}, bishop := ∅, rook := ∅,
               queen := ∅, king := {⟨56, by omega⟩} },
    latWhite := { oo := false, ooo := false, epMask := ∅ },
    latBlack := { oo := false, ooo := false, epMask := ∅ },
    plyCount := 0, halfClock := 0 }

/-- White: Nd1 (4), Kb1 (6); Black: Nb2 (14), Kb3 (22); White to move.
Both kings stand inside the blast of b2. -/
def doubleBlastBoard : Board :=
  { white := { pawn := ∅, knight := {⟨4, by omega⟩}, bishop := ∅, rook := ∅,
               queen := ∅, king := {⟨6, by omega⟩} },
    black := { pawn := ∅, knight := {⟨14, by omega⟩}, bishop := ∅, rook := ∅,
               queen := ∅, king := {⟨22, by omega⟩} },
    latWhite := { oo := false, ooo := false, epMask := ∅ },
    latBlack := { oo := false, ooo := false, epMask := ∅ },
    plyCount := 0, halfClock := 0 }

/-- The position after 1.e4 d5 2.e5 f5 reduced to the essentials: White Pe5
(35), Ke1 (3); Black Pf5 (34), Ke8 (59); Black's latent en-passant target
is f6 (42); White to move. -/
def epBoard : Board :=
  { white := { pawn := {⟨35, by omega⟩}, knight := ∅, bishop := ∅, rook := ∅,
               queen := ∅, king := {⟨3, by omega⟩} },
    black := { pawn := {⟨34, by omega⟩}, knight := ∅, bishop := ∅, rook := ∅,
               queen := ∅, king := {⟨59, by omega⟩} },
    latWhite := { oo := false, ooo := false, epMask := ∅ },
    latBlack := { oo := false, ooo := false, epMask := {⟨42, by omega⟩} },
    plyCount := 2, halfClock := 0 }

/-- The en-passant capture e5xf6 on `epBoard`. -/
def epCaptureMove : Move :=
  { fromSq := ⟨35, by omega⟩, toSq := ⟨42, by omega⟩, piece := PieceType.pawn,
    isCapture := true, captured := PieceType.pawn, isEnpassant := true,
    epSq := ⟨34, by omega⟩, promotion := PieceType.pawn }

/-
  C9 — `calcPadding` computes the negated padding in unsigned arithmetic.
-/

/-- C9: `calcPadding` subtracts in the wrong direction.  For a 2-byte block
the claimed padding to the next 64-byte boundary is 62, but the code
computes `2 - 64` in `usize` arithmetic, i.e. `2^64 - 62`, so `read` would
try to skip that many bytes; only exact multiples of 64 give 0. -/
theorem calcPadding_wraps :
    calcPadding 2 = 2 ^ 64 - 62 ∧ (64 - 2 % 64) % 64 = 62 ∧ calcPadding 2 ≠ 62 ∧
      calcPadding 128 = 0 ∧ paddedStreamBytes 2 ≠ 2 + 62 := by
  refine ⟨by decide, by decide, by decide, by decide, by decide⟩

/-
  C5 — `probe_wdl` never returns a WDL value.
-/

/-- The core probe returns `false` on every path: the final branch (table
found, ready) is the unimplemented decoder. -/
theorem coreProbeWdl_false (st : TBState) (b : Board) : coreProbeWdl st b = false := by
  unfold coreProbeWdl
  split
  · rfl
  · split
    · rfl
    · split <;> rfl

/-- C5: for every loader state — in particular one whose index covers the
board's material signature — `probe_wdl` fails, because the index/Huffman
decoder behind `atomic_syzygy_core::probe_wdl` is unimplemented and that
function returns `false` unconditionally. -/
theorem probe_wdl_never_succeeds (st : TBState) (b : Board) : tbProbeWdl st b = none := by
  unfold tbProbeWdl
  rw [coreProbeWdl_false]
  split_ifs with h1 h2 h3 h4 <;> simp_all

/-
  C10 — the accumulator stack pointer.
-/

/-- Pushing `n` times moves the stack index up by `n`. -/
theorem applyNnueOps_replicate_push (n : Nat) (i : Int) :
    applyNnueOps (List.replicate n (NnueOp.update true)) i = i + n := by
  induction n generalizing i with
  | zero => simp [applyNnueOps]
  | succ k ih =>
      rw [List.replicate_succ]
      simp only [applyNnueOps, List.foldl_cons] at *
      rw [ih]
      simp [nnueUpdateIdx]
      omega

/-- C10 counterexample: 256 consecutive `update<Push>` calls from the stack
base move the current pointer to index 256, past the last slot (255) of the
256-entry stack — `update` does not clamp the top, so the pointer does not
always stay within the stack. -/
theorem nnue_stack_overflow_counterexample :
    applyNnueOps (List.replicate 256 (NnueOp.update true)) 0 = 256 ∧
      ¬((256 : Int) ≤ 255) := by
  constructor
  · rw [applyNnueOps_replicate_push]
    norm_num
  · omega

/-- The stack index never becomes negative. -/
theorem applyNnueOps_nonneg (ops : List NnueOp) (i : Int) (h : 0 ≤ i) :
    0 ≤ applyNnueOps ops i := by
  induction ops generalizing i with
  | nil => simpa [applyNnueOps] using h
  | cons op rest ih =>
      cases op with
      | update p =>
          have hrw : applyNnueOps (NnueOp.update p :: rest) i =
              applyNnueOps rest (nnueUpdateIdx p i) := by
            simp [applyNnueOps]
          rw [hrw]
          apply ih
          simp only [nnueUpdateIdx]
          split <;> omega
      | pop =>
          have hrw : applyNnueOps (NnueOp.pop :: rest) i = applyNnueOps rest (nnuePop i) := by
            simp [applyNnueOps]
          rw [hrw]
          apply ih
          simp only [nnuePop]
          split <;> omega

/-- C10 (amended): `pop` at the base of the stack is a no-op, and
consequently the pointer never moves below the base under any sequence of
`update`/`pop` calls; it stays within the top of the stack only when the
pushes are bounded (256 consecutive pushes escape it, guarded only by an
`assert`). -/
theorem nnue_pop_no_underflow :
    nnuePop 0 = 0 ∧ ∀ ops : List NnueOp, 0 ≤ applyNnueOps ops 0 :=
  ⟨by unfold nnuePop; norm_num, fun ops => applyNnueOps_nonneg ops 0 le_rfl⟩

/-
  C7 — the NNUE feature index.
-/

/-- For the white perspective the feature square index is the arithmetic
file flip (`idx ^ 7`). -/
theorem featureSquareIndex_white :
    ∀ sq : Sq, featureSquareIndex sq Color.white = 8 * (sq.val / 8) + (7 - sq.val % 8) := by
  decide

/-- For the black perspective the feature square index additionally flips
the rank (`idx ^ 0x38`). -/
theorem featureSquareIndex_black :
    ∀ sq : Sq, featureSquareIndex sq Color.black = 8 * (7 - sq.val / 8) + (7 - sq.val % 8) := by
  decide

/-- C7: the feature index computed by `NnueState::featureIndex` is
`bucket(perspective, king) * InputSize + (piece_color == perspective ? 0 : 1) * 384
+ pt * 64 + feature_square_index(sq, perspective)`, where the file flip
(`^ 7`) and, for the black perspective, the additional rank flip (`^ 0x38`)
are the arithmetic coordinate flips. -/
theorem featureIndex_formula (getBucket : Color → Sq → Nat) (inputSize : Nat)
    (perspective pieceColor : Color) (pt : PieceType) (sq king : Sq) :
    featureIndex getBucket inputSize perspective pieceColor pt sq king =
      getBucket perspective king * inputSize +
        (if pieceColor = perspective then 0 else 1) * 384 + pt.toNat * 64 +
        (if perspective = Color.black then 8 * (7 - sq.val / 8) + (7 - sq.val % 8)
         else 8 * (sq.val / 8) + (7 - sq.val % 8)) := by
  unfold featureIndex
  cases perspective <;>
    simp [featureSquareIndex_white, featureSquareIndex_black]

/-
  C8 — threshold monotonicity of the SEE gates.
-/

/-- `see_ge_` is antitone in the threshold: every branch compares a
threshold-independent score against the threshold (or ignores it). -/
theorem seeGeC_antitone (c : Color) (b : Board) (mv : Move) {t t' : Int}
    (hle : t ≤ t') (h : seeGeC c b mv t' = true) : seeGeC c b mv t = true := by
  simp only [seeGeC] at h ⊢
  split_ifs at h ⊢ <;>
    first
      | rfl
      | (simp only [decide_eq_true_eq] at h ⊢; omega)

/-- C8: `see_ge(m, t+1)` implies `see_ge(m, t)`, and `see_gt(m, t)` is by
definition `see_ge(m, t+1)`. -/
theorem see_threshold_monotone_and_gt (b : Board) (mv : Move) (t : Int) :
    (b.seeGe mv (t + 1) = true → b.seeGe mv t = true) ∧
      b.seeGt mv t = b.seeGe mv (t + 1) :=
  ⟨fun h => seeGeC_antitone b.turnColor b mv (by omega) h, rfl⟩

/-- C8 witness: the monotonicity and the `see_gt` equation applied to the
concrete capture Nd1xb2. -/
theorem see_threshold_monotone_and_gt_witness :
    seeBugBoard.seeGe knightTakesB2 0 = true ∧
      seeBugBoard.seeGt knightTakesB2 (-1) = seeBugBoard.seeGe knightTakesB2 ((-1) + 1) :=
  ⟨(see_threshold_monotone_and_gt seeBugBoard knightTakesB2 0).1 (by decide),
   (see_threshold_monotone_and_gt seeBugBoard knightTakesB2 (-1)).2⟩

/-
  C2 — the capture branch of `see_ge_` does not compute the documented
  capture evaluation.
-/

/-- C2: on the capture Nd1xb2 (no kings in the blast, no other pieces),
`see_ge_` accepts threshold 0 — its score is `value(captured) +
Σ value(enemy in boom) = 450 + 450 = 900`, counting the captured knight
twice, subtracting neither the mover (whose from-square is outside the
blast set it builds) nor the documented tie-break 1 — while the repo's own
reference evaluation (`gain_atomic` in `see_example.h`, the formula the
claim states) yields `value(captured) − value(mover) − 1 = −1` and would
reject the capture at threshold 0. -/
theorem seeGe_capture_diverges_from_reference :
    seeBugBoard.seeGe knightTakesB2 0 = true ∧
      gainAtomicCapture seeBugBoard Color.white knightTakesB2 = -1 ∧
      ¬((-1 : Int) ≥ 0) :=
  ⟨by decide, by decide, by omega⟩

/-
  C3 — null move does not clear the en-passant target.
-/

/-- C3: on a board whose latent en-passant mask is set, `forward(null)`
returns the board unchanged except for the `ply_count` and `half_clock`
increments — the early return of the null branch skips `clear_ep_mask`,
so the en-passant target survives instead of being cleared. -/
theorem forward_null_keeps_ep_mask :
    epBoard.forward Move.null =
        { epBoard with plyCount := epBoard.plyCount + 1,
                       halfClock := epBoard.halfClock + 1 } ∧
      (epBoard.forward Move.null).latBlack.epMask ≠ ∅ :=
  ⟨by decide, by decide⟩

/-
  C6 — `parse_fen` on a FEN without halfmove/fullmove fields.
-/

/-- C6: on the four-field start-position FEN, `parse_fen` reaches
`std::stol` with an empty token and aborts (modelled as `none`) instead of
defaulting the halfmove clock to 0 and the fullmove number to 1; the same
FEN with explicit `0 1` parses fine. -/
theorem parse_fen_missing_counters_aborts :
    parseFen ("rnbqkbnr/pppppppp/8/8/8/8/PPPPPPPP/RNBQKBNR w KQkq -") = none ∧
      (parseFen ("rnbqkbnr/pppppppp/8/8/8/8/PPPPPPPP/RNBQKBNR w KQkq - 0 1")).isSome = true :=
  ⟨by decide, by decide⟩

/-
  C1 — legality never lets the mover's own king die.
-/

/-- Removing a non-king piece leaves the king plane alone. -/
theorem removePiece_king_of_ne (m : SideManifest) {pt : PieceType} (h : pt ≠ PieceType.king)
    (s : Sq) : (m.removePiece pt s).king = m.king := by
  cases pt <;> first | rfl | exact absurd rfl h

/-- Adding a non-king piece leaves the king plane alone. -/
theorem addPiece_king_of_ne (m : SideManifest) {pt : PieceType} (h : pt ≠ PieceType.king)
    (s : Sq) : (m.addPiece pt s).king = m.king := by
  cases pt <;> first | rfl | exact absurd rfl h

/-- Removing the king from a square erases it from the king plane. -/
theorem removePiece_king_king (m : SideManifest) (s : Sq) :
    (m.removePiece PieceType.king s).king = m.king.erase s := rfl

/-- Adding the king to a square inserts it into the king plane. -/
theorem addPiece_king_king (m : SideManifest) (s : Sq) :
    (m.addPiece PieceType.king s).king = insert s m.king := rfl

/-- The blast removal subtracts the mask from the king plane. -/
theorem removeBlast_king (m : SideManifest) (mask : SquareSet) :
    (m.removeBlast mask).king = m.king \ mask := rfl

/-- `man` after `setMan` of the same color. -/
theorem man_setMan_same (b : Board) (c : Color) (m : SideManifest) :
    (b.setMan c m).man c = m := by cases c <;> rfl

/-- `man` after `setMan` of the other color. -/
theorem man_setMan_ne (b : Board) {c c' : Color} (h : c ≠ c') (m : SideManifest) :
    (b.setMan c' m).man c = b.man c := by
  cases c <;> cases c' <;> first | rfl | exact absurd rfl h

/-- `man` is unaffected by `setLat`. -/
theorem man_setLat (b : Board) (c : Color) (l : SideLatent) (c' : Color) :
    (b.setLat c l).man c' = b.man c' := by cases c <;> cases c' <;> rfl

/-- The two colors differ from their opponents. -/
theorem ne_opponent (c : Color) : c ≠ opponent c := by cases c <;> decide

/-- The manifest of the mover after a non-null `forward_`. -/
theorem forwardC_man_us (c : Color) (b : Board) (mv : Move) (hnull : mv.isNull = false) :
    ((forwardC c b mv).man c) =
      (let ci := castleInfo c
       let isCastleQ := mv.isCastleOOO c
       let isCastleK := mv.isCastleOO c
       let placed := if isCastleQ || isCastleK then mv.piece
                     else if mv.isPromotion then mv.promotion else mv.piece
       let us0 := (b.man c).removePiece mv.piece mv.fromSq
       let us1 :=
         if isCastleQ then
           ((us0.removePiece PieceType.rook ci.oooRook).addPiece PieceType.king
               ci.afterOooKing).addPiece PieceType.rook ci.afterOooRook
         else if isCastleK then
           ((us0.removePiece PieceType.rook ci.ooRook).addPiece PieceType.king
               ci.afterOoKing).addPiece PieceType.rook ci.afterOoRook
         else us0.addPiece placed mv.toSq
       if mv.isCapture || mv.isEnpassant then
         let center := if mv.isEnpassant then mv.epSq else mv.toSq
         (us1.removePiece placed mv.toSq).removeBlast (explosionMask center)
       else us1) := by
  unfold forwardC
  rw [if_neg (by simp [hnull])]
  cases c <;>
    simp only [Board.setMan, Board.setLat, Board.man, opponent] <;>
    split_ifs <;>
    rfl

/-- After a non-capturing castle, the mover's king plane contains the
post-castle king square. -/
theorem forwardC_king_nonempty_castle (c : Color) (b : Board) (mv : Move)
    (hcast : (mv.isCastleOO c || mv.isCastleOOO c) = true)
    (hcap : mv.isCapture = false) (hep : mv.isEnpassant = false) :
    ((forwardC c b mv).man c).king.Nonempty := by
  have hcast' : mv.isCastleOO c = true ∨ mv.isCastleOOO c = true := by
    simpa using hcast
  have hpk : mv.piece = PieceType.king := by
    rcases hcast' with h | h <;>
      · simp only [Move.isCastleOO, Move.isCastleOOO, Bool.and_eq_true, beq_iff_eq] at h
        exact h.1.1
  have hnull : mv.isNull = false := by
    cases hn : mv.isNull
    · rfl
    · exfalso
      have heq : mv = Move.null := by simpa [Move.isNull] using hn
      rw [heq] at hpk
      exact absurd hpk (by decide)
  rw [forwardC_man_us c b mv hnull]
  simp only [hcap, hep, Bool.or_self, Bool.false_eq_true, if_false]
  by_cases hq : mv.isCastleOOO c = true
  · rw [if_pos hq, SideManifest.addPiece, addPiece_king_king]
    exact Finset.insert_nonempty _ _
  · have hk' : mv.isCastleOO c = true := by
      rcases hcast' with h | h
      · exact h
      · exact absurd h hq
    rw [if_neg hq, if_pos hk', SideManifest.addPiece, addPiece_king_king]
    exact Finset.insert_nonempty _ _

/-- After a validated non-castle move the mover's king plane stays
non-empty: a moved king is re-inserted, any other mover leaves the king
plane alone, and the blast of a validated capture misses the mover's
king. -/
theorem forwardC_king_nonempty_normal (c : Color) (b : Board) (mv : Move)
    (hk : (b.man c).king.Nonempty)
    (hnull : mv.isNull = false)
    (hcK : mv.isCastleOO c = false) (hcQ : mv.isCastleOOO c = false)
    (hkc : mv.piece = PieceType.king → mv.isCapture = false ∧ mv.isEnpassant = false)
    (hpknotking : mv.promotion ≠ PieceType.king)
    (hpp : mv.promotion ≠ PieceType.pawn → mv.piece = PieceType.pawn)
    (hbl : (mv.isCapture = true ∨ mv.isEnpassant = true) →
        explosionMask (if mv.isEnpassant then mv.epSq else mv.toSq) ∩ (b.man c).king = ∅) :
    ((forwardC c b mv).man c).king.Nonempty := by
  rw [forwardC_man_us c b mv hnull]
  simp only [hcK, hcQ, Bool.or_self, Bool.false_eq_true, if_false]
  by_cases hpking : mv.piece = PieceType.king
  · obtain ⟨hc1, hc2⟩ := hkc hpking
    have hpromo : mv.promotion = PieceType.pawn := by
      by_contra hx
      exact absurd (hpp hx) (by rw [hpking]; decide)
    have hpr : mv.isPromotion = false := by
      simp [Move.isPromotion, hpromo]
    simp only [hc1, hc2, Bool.or_self, Bool.false_eq_true, if_false, hpr, hpking]
    rw [addPiece_king_king, removePiece_king_king]
    exact Finset.insert_nonempty _ _
  · have hplaced : (if mv.isPromotion then mv.promotion else mv.piece) ≠ PieceType.king := by
      by_cases hpr : mv.isPromotion = true
      · simpa [hpr] using hpknotking
      · simp only [hpr, Bool.false_eq_true, if_false]
        simpa using hpking
    obtain ⟨x, hx⟩ := hk
    by_cases hcap : (mv.isCapture || mv.isEnpassant) = true
    · rw [if_pos hcap]
      rw [removeBlast_king, removePiece_king_of_ne _ hplaced,
        addPiece_king_of_ne _ hplaced, removePiece_king_of_ne _ hpking]
      refine ⟨x, Finset.mem_sdiff.mpr ⟨hx, fun hxb => ?_⟩⟩
      have hor : mv.isCapture = true ∨ mv.isEnpassant = true := by
        simpa using hcap
      have : x ∈ explosionMask (if mv.isEnpassant then mv.epSq else mv.toSq) ∩ (b.man c).king :=
        Finset.mem_inter.mpr ⟨hxb, hx⟩
      rw [hbl hor] at this
      exact absurd this (Finset.not_mem_empty x)
    · rw [if_neg hcap]
      rw [addPiece_king_of_ne _ hplaced, removePiece_king_of_ne _ hpking]
      exact ⟨x, hx⟩

/-- What a successful `is_legal_` check certifies: either the move is a
validated castle (hence neither a capture nor en passant), or it passed
the normal-move validation — in particular the move record is coherent,
a moving king cannot be capturing, promotions cannot create kings, the
en-passant field names the captured pawn's square, and the blast of a
capture misses the mover's own king. -/
theorem isLegalC_true_facts (c : Color) (mode : GenMode) (b : Board) (mv : Move)
    (h : isLegalC c mode b mv = true) :
    (b.man c).king.Nonempty ∧
      (((mv.isCastleOO c || mv.isCastleOOO c) = true ∧ mv.isCapture = false ∧
          mv.isEnpassant = false) ∨
       ((mv.isCastleOO c || mv.isCastleOOO c) = false ∧ mv.isNull = false ∧
        (mv.piece = PieceType.king → mv.isCapture = false ∧ mv.isEnpassant = false) ∧
        mv.promotion ≠ PieceType.king ∧
        (mv.promotion ≠ PieceType.pawn → mv.piece = PieceType.pawn) ∧
        ((mv.isCapture = true ∨ mv.isEnpassant = true) →
          (mv.isEnpassant = true → mv.epSq = (pawnPush (opponent c) mv.toSq ∅).item) ∧
          explosionMask (if mv.isEnpassant then (pawnPush (opponent c) mv.toSq ∅).item
              else mv.toSq) ∩ (b.man c).king = ∅))) := by
  unfold isLegalC at h
  by_cases h0 : (b.man c).king.Nonempty
  case neg =>
    rw [if_pos h0] at h
    exact absurd h (by decide)
  case pos =>
  rw [if_neg (not_not_intro h0)] at h
  refine ⟨h0, ?_⟩
  by_cases hcd : (mv.isCastleOO c || mv.isCastleOOO c) = true
  case pos =>
    rw [if_pos hcd] at h
    by_cases hc1 : (mv.isCapture || mv.isEnpassant || mv.isPromotion) = true
    · rw [if_pos hc1] at h
      exact absurd h (by decide)
    · left
      simp only [Bool.or_eq_true, not_or, Bool.not_eq_true] at hc1
      exact ⟨hcd, hc1.1.1, hc1.1.2⟩
  case neg =>
  have hcdf : (mv.isCastleOO c || mv.isCastleOOO c) = false := by
    cases hx : (mv.isCastleOO c || mv.isCastleOOO c)
    · rfl
    · exact absurd hx hcd
  rw [if_neg hcd] at h
  by_cases n1 : mv.fromSq ∉ (b.man c).all
  · rw [if_pos n1] at h
    exact absurd h (by decide)
  rw [if_neg n1] at h
  by_cases n2 : mv.toSq ∈ (b.man c).all
  · rw [if_pos n2] at h
    exact absurd h (by decide)
  rw [if_neg n2] at h
  by_cases n3 : mv.piece ≠ (b.man c).occAt mv.fromSq
  · rw [if_pos n3] at h
    exact absurd h (by decide)
  rw [if_neg n3] at h
  by_cases n4 : mv.isCapture ≠ (decide (mv.toSq ∈ (b.man (opponent c)).all) || mv.isEnpassant)
  · rw [if_pos n4] at h
    exact absurd h (by decide)
  rw [if_neg n4] at h
  by_cases n5 : ¬mv.isCapture ∧ mv.captured ≠ PieceType.pawn
  · rw [if_pos n5] at h
    exact absurd h (by decide)
  rw [if_neg n5] at h
  by_cases n6 : mv.isCapture ∧ ¬mv.isEnpassant ∧
      (mv.toSq ∉ (b.man (opponent c)).all ∨ mv.captured ≠ (b.man (opponent c)).occAt mv.toSq)
  · rw [if_pos n6] at h
    exact absurd h (by decide)
  rw [if_neg n6] at h
  by_cases n7 : ¬mv.isEnpassant ∧ mv.epSq ≠ sq0
  · rw [if_pos n7] at h
    exact absurd h (by decide)
  rw [if_neg n7] at h
  by_cases n8 : mv.isEnpassant ∧
      (¬(b.lat (opponent c)).epMask.Nonempty ∨ mv.toSq ∉ (b.lat (opponent c)).epMask ∨
       mv.epSq ≠ (pawnPush (opponent c) mv.toSq ∅).item ∨
       (pawnPush (opponent c) mv.toSq ∅).item ∉ (b.man (opponent c)).pawn)
  · rw [if_pos n8] at h
    exact absurd h (by decide)
  rw [if_neg n8] at h
  by_cases n9 : ¬legalFromToOf c b mv
  · rw [if_pos n9] at h
    exact absurd h (by decide)
  rw [if_neg n9] at h
  by_cases n10 : mv.isPromotion ∧
      (mv.piece ≠ PieceType.pawn ∨ mv.toSq ∉ lastRank c ∨ mv.promotion = PieceType.pawn ∨
       mv.promotion = PieceType.king)
  · rw [if_pos n10] at h
    exact absurd h (by decide)
  rw [if_neg n10] at h
  by_cases n11 : ¬mv.isPromotion ∧ mv.piece = PieceType.pawn ∧ mv.toSq ∈ lastRank c
  · rw [if_pos n11] at h
    exact absurd h (by decide)
  rw [if_neg n11] at h
  by_cases n12 : ¬mode.noisy ∧ mv.isNoisy
  · rw [if_pos n12] at h
    exact absurd h (by decide)
  rw [if_neg n12] at h
  by_cases n13 : ¬mode.quiet ∧ ¬mv.isNoisy
  · rw [if_pos n13] at h
    exact absurd h (by decide)
  rw [if_neg n13] at h
  by_cases n14 : (mv.isCapture ∨ mv.isEnpassant) ∧
      (explosionMask (if mv.isEnpassant then (pawnPush (opponent c) mv.toSq ∅).item
          else mv.toSq) ∩ (b.man c).king).Nonempty
  · rw [if_pos n14] at h
    exact absurd h (by decide)
  right
  have hfrom : mv.fromSq ∈ (b.man c).all := not_not.mp n1
  have hnull : mv.isNull = false := by
    cases hn : mv.isNull
    · rfl
    · exfalso
      have heq : mv = Move.null := by simpa [Move.isNull] using hn
      rw [heq] at hfrom n2
      exact n2 hfrom
  have hlft : legalFromToOf c b mv = true := not_not.mp n9
  have hkc : mv.piece = PieceType.king → mv.isCapture = false ∧ mv.isEnpassant = false := by
    intro hpk
    have hlft2 := hlft
    unfold legalFromToOf at hlft2
    simp only [hpk] at hlft2
    have hcapf : mv.isCapture = false := by
      cases hc : mv.isCapture
      · rfl
      · rw [hc] at hlft2
        simp at hlft2
    refine ⟨hcapf, ?_⟩
    have h4 : mv.isCapture = (decide (mv.toSq ∈ (b.man (opponent c)).all) || mv.isEnpassant) :=
      not_not.mp n4
    cases he : mv.isEnpassant
    · rfl
    · exfalso
      rw [hcapf, he, Bool.or_true] at h4
      exact absurd h4 (by decide)
  have hpknot : mv.promotion ≠ PieceType.king := by
    intro hpe
    exact n10 ⟨by simp [Move.isPromotion, hpe], Or.inr (Or.inr (Or.inr hpe))⟩
  have hpp : mv.promotion ≠ PieceType.pawn → mv.piece = PieceType.pawn := by
    intro hne
    by_contra hx
    exact n10 ⟨by simp [Move.isPromotion, hne], Or.inl hx⟩
  refine ⟨hcdf, hnull, hkc, hpknot, hpp, ?_⟩
  intro hor
  constructor
  · intro hep
    have hd : ¬(¬(b.lat (opponent c)).epMask.Nonempty ∨ mv.toSq ∉ (b.lat (opponent c)).epMask ∨
        mv.epSq ≠ (pawnPush (opponent c) mv.toSq ∅).item ∨
        (pawnPush (opponent c) mv.toSq ∅).item ∉ (b.man (opponent c)).pawn) :=
      fun hx => n8 ⟨hep, hx⟩
    push_neg at hd
    exact hd.2.2.1
  · exact Finset.not_nonempty_iff_eq_empty.mp (fun hx => n14 ⟨hor, hx⟩)

/-- A legal move keeps the mover's king on the board. -/
theorem legal_king_alive_aux (c : Color) (mode : GenMode) (b : Board) (mv : Move)
    (h : isLegalC c mode b mv = true) : ((forwardC c b mv).man c).king.Nonempty := by
  obtain ⟨hk, hfacts | hfacts⟩ := isLegalC_true_facts c mode b mv h
  · exact forwardC_king_nonempty_castle c b mv hfacts.1 hfacts.2.1 hfacts.2.2
  · obtain ⟨hcdf, hnull, hkc, hpknot, hpp, hblast⟩ := hfacts
    have hflags : mv.isCastleOO c = false ∧ mv.isCastleOOO c = false := by
      constructor <;>
        · cases hx : Move.isCastleOO c mv <;> cases hy : Move.isCastleOOO c mv <;>
            first | rfl | (rw [hx, hy] at hcdf; exact absurd hcdf (by decide))
    apply forwardC_king_nonempty_normal c b mv hk hnull hflags.1 hflags.2 hkc hpknot hpp
    intro hor
    obtain ⟨hepeq, hempty⟩ := hblast hor
    cases hep : mv.isEnpassant
    · simpa [hep] using hempty
    · have heq := hepeq hep
      simp only [hep, if_pos] at hempty ⊢
      rw [heq]
      exact hempty

/-- A capture or en passant whose blast contains the mover's own king never
passes `is_legal_`. -/
theorem blast_own_king_illegal_aux (c : Color) (mode : GenMode) (b : Board) (mv : Move)
    (hcap : mv.isCapture = true ∨ mv.isEnpassant = true)
    (hblast : ((explosionMask (if mv.isEnpassant then (pawnPush (opponent c) mv.toSq ∅).item
        else mv.toSq)) ∩ (b.man c).king).Nonempty) :
    isLegalC c mode b mv = false := by
  cases hx : isLegalC c mode b mv
  · rfl
  · exfalso
    obtain ⟨hk, hf | hf⟩ := isLegalC_true_facts c mode b mv hx
    · rcases hcap with hc | hc
      · rw [hf.2.1] at hc
        exact absurd hc (by decide)
      · rw [hf.2.2] at hc
        exact absurd hc (by decide)
    · obtain ⟨_, _, _, _, _, hbl⟩ := hf
      have hemp := (hbl hcap).2
      rw [hemp] at hblast
      exact absurd hblast (by simp)

/-- C1 (amended): a legal move always leaves the mover's own king alive
after `forward` — in particular any capture or en passant whose blast
contains the mover's king is illegal, even when the enemy king would die
in the same blast; king survival is necessary for legality (not
sufficient: check constraints still apply). -/
theorem isLegal_king_survives :
    (∀ (c : Color) (mode : GenMode) (b : Board) (mv : Move),
        isLegalC c mode b mv = true → ((forwardC c b mv).man c).king.Nonempty) ∧
      ∀ (c : Color) (mode : GenMode) (b : Board) (mv : Move),
        (mv.isCapture = true ∨ mv.isEnpassant = true) →
        ((explosionMask (if mv.isEnpassant then (pawnPush (opponent c) mv.toSq ∅).item
            else mv.toSq)) ∩ (b.man c).king).Nonempty →
        isLegalC c mode b mv = false :=
  ⟨legal_king_alive_aux, blast_own_king_illegal_aux⟩

/-- C1 witness: the legal en-passant capture on `epBoard` keeps White's
king, and the double-king-blast capture on `doubleBlastBoard` is rejected
because White's king sits in the blast. -/
theorem isLegal_king_survives_witness :
    (isLegalC Color.white modeAll epBoard epCaptureMove = true ∧
      ((forwardC Color.white epBoard epCaptureMove).man Color.white).king.Nonempty) ∧
      (knightTakesB2.isCapture = true ∨ knightTakesB2.isEnpassant = true) ∧
      ((explosionMask (if knightTakesB2.isEnpassant then
          (pawnPush (opponent Color.white) knightTakesB2.toSq ∅).item
          else knightTakesB2.toSq)) ∩ (doubleBlastBoard.man Color.white).king).Nonempty ∧
      isLegalC Color.white modeAll doubleBlastBoard knightTakesB2 = false :=
  ⟨⟨by decide, isLegal_king_survives.1 Color.white modeAll epBoard epCaptureMove (by decide)⟩,
   by decide, by decide,
   isLegal_king_survives.2 Color.white modeAll doubleBlastBoard knightTakesB2 (by decide)
     (by decide)⟩

/-- C1 counterexample: on `doubleBlastBoard`, the capture Nd1xb2 blasts
both kings at once — after `forward` neither king remains — yet
`is_legal` rejects it (the claim says such a move is legal and wins). -/
theorem isLegal_double_king_blast_counterexample :
    knightTakesB2.isCapture = true ∧
      ((doubleBlastBoard.forward knightTakesB2).man Color.white).king = ∅ ∧
      ((doubleBlastBoard.forward knightTakesB2).man Color.black).king = ∅ ∧
      doubleBlastBoard.isLegal modeAll knightTakesB2 = false :=
  ⟨by decide, by decide, by decide, by decide⟩

/-
  C4 — what a capture's blast removes.
-/

/-- The side's planes are pairwise disjoint: a square carries at most one
piece type. -/
def SideDisjoint (m : SideManifest) : Prop :=
  ∀ (s : Sq) (pt pt' : PieceType), s ∈ m.getPlane pt → s ∈ m.getPlane pt' → pt = pt'

/-- The board invariant used by the blast-removal theorem: each side's
planes are pairwise disjoint and the two sides do not overlap. -/
def BoardWF (b : Board) : Prop :=
  SideDisjoint b.white ∧ SideDisjoint b.black ∧
    ∀ s : Sq, s ∈ b.white.all → s ∈ b.black.all → False

/-- The square of the directly captured man: the en-passant pawn square for
en passant, the destination otherwise.  This is also the blast centre
`forward_` uses. -/
def capturedSquare (mv : Move) : Sq :=
  if mv.isEnpassant then mv.epSq else mv.toSq

/-- The non-pawn planes of a side. -/
def nonPawnAll (m : SideManifest) : SquareSet :=
  m.knight ∪ m.bishop ∪ m.rook ∪ m.queen ∪ m.king

/-- The squares a capture clears, per the claim: the mover's origin, the
directly captured man's square, and every non-pawn-occupied square of
either color inside the blast mask around the centre. -/
def captureRemovalSet (b : Board) (mv : Move) : SquareSet :=
  {mv.fromSq, capturedSquare mv} ∪
    (explosionMask (capturedSquare mv) ∩ (b.occAll \ (b.white.pawn ∪ b.black.pawn)))

/-- Well-formedness of a capture or en-passant move of color `c` on `b`:
the move record is coherent with the position (this is what `is_legal_`
validates before running `forward_`). -/
def CaptureWF (c : Color) (b : Board) (mv : Move) : Prop :=
  (mv.isCapture = true ∨ mv.isEnpassant = true) ∧
  mv.isCastleOO c = false ∧ mv.isCastleOOO c = false ∧ mv.isNull = false ∧
  mv.fromSq ∈ (b.man c).getPlane mv.piece ∧
  mv.toSq ∉ (b.man c).all ∧
  (if mv.isEnpassant = true then
      mv.epSq ∈ (b.man (opponent c)).pawn ∧ mv.toSq ∉ b.occAll
   else mv.toSq ∈ (b.man (opponent c)).getPlane mv.captured)

/-- Membership in a plane implies membership in `all()`. -/
theorem mem_all_of_mem_getPlane {m : SideManifest} {pt : PieceType} {s : Sq}
    (h : s ∈ m.getPlane pt) : s ∈ m.all := by
  cases pt <;> simp [SideManifest.getPlane] at h <;> simp [SideManifest.all, h]

/-- A square outside `all()` is outside every plane. -/
theorem not_mem_getPlane_of_not_mem_all {m : SideManifest} {s : Sq} (h : s ∉ m.all)
    (pt : PieceType) : s ∉ m.getPlane pt :=
  fun hx => h (mem_all_of_mem_getPlane hx)

/-- Adding a piece on a free square and removing it again is the identity. -/
theorem addPiece_removePiece_cancel (m : SideManifest) (pt : PieceType) (t : Sq)
    (h : t ∉ m.all) : (m.addPiece pt t).removePiece pt t = m := by
  have hp := not_mem_getPlane_of_not_mem_all h
  cases pt
  case pawn =>
    have hx : t ∉ m.pawn := hp PieceType.pawn
    show { m with pawn := (insert t m.pawn).erase t } = m
    rw [Finset.erase_insert hx]
  case knight =>
    have hx : t ∉ m.knight := hp PieceType.knight
    show { m with knight := (insert t m.knight).erase t } = m
    rw [Finset.erase_insert hx]
  case bishop =>
    have hx : t ∉ m.bishop := hp PieceType.bishop
    show { m with bishop := (insert t m.bishop).erase t } = m
    rw [Finset.erase_insert hx]
  case rook =>
    have hx : t ∉ m.rook := hp PieceType.rook
    show { m with rook := (insert t m.rook).erase t } = m
    rw [Finset.erase_insert hx]
  case queen =>
    have hx : t ∉ m.queen := hp PieceType.queen
    show { m with queen := (insert t m.queen).erase t } = m
    rw [Finset.erase_insert hx]
  case king =>
    have hx : t ∉ m.king := hp PieceType.king
    show { m with king := (insert t m.king).erase t } = m
    rw [Finset.erase_insert hx]

/-- `removePiece` only shrinks `all()`. -/
theorem all_removePiece_subset (m : SideManifest) (pt : PieceType) (t : Sq) :
    (m.removePiece pt t).all ⊆ m.all := by
  cases pt <;>
    · intro s hs
      simp only [SideManifest.all, SideManifest.removePiece, Finset.mem_union,
        Finset.mem_erase] at hs ⊢
      tauto

/-- `removeBlast` only shrinks `all()`. -/
theorem all_removeBlast_subset (m : SideManifest) (mask : SquareSet) :
    (m.removeBlast mask).all ⊆ m.all := by
  intro s hs
  simp only [SideManifest.all, SideManifest.removeBlast, Finset.mem_union,
    Finset.mem_sdiff] at hs ⊢
  tauto

/-- Splitting `all()` into the pawn plane and the non-pawn planes. -/
theorem mem_all_split (m : SideManifest) (s : Sq) :
    s ∈ m.all ↔ s ∈ m.pawn ∨ s ∈ nonPawnAll m := by
  simp [SideManifest.all, nonPawnAll, or_assoc]

/-- A side with disjoint planes has no square that is both a pawn and a
non-pawn. -/
theorem not_pawn_and_nonPawn {m : SideManifest} (hd : SideDisjoint m) (s : Sq) :
    ¬(s ∈ m.pawn ∧ s ∈ nonPawnAll m) := by
  rintro ⟨hp, hn⟩
  have h5 : s ∈ m.knight ∨ s ∈ m.bishop ∨ s ∈ m.rook ∨ s ∈ m.queen ∨ s ∈ m.king := by
    simp only [nonPawnAll, Finset.mem_union] at hn
    tauto
  rcases h5 with h | h | h | h | h
  · exact absurd (hd s PieceType.pawn PieceType.knight hp h) (by decide)
  · exact absurd (hd s PieceType.pawn PieceType.bishop hp h) (by decide)
  · exact absurd (hd s PieceType.pawn PieceType.rook hp h) (by decide)
  · exact absurd (hd s PieceType.pawn PieceType.queen hp h) (by decide)
  · exact absurd (hd s PieceType.pawn PieceType.king hp h) (by decide)

/-- Membership in the pawn plane after `removePiece`. -/
theorem mem_pawn_removePiece (m : SideManifest) (pt : PieceType) (f : Sq) (s : Sq) :
    s ∈ (m.removePiece pt f).pawn ↔ s ∈ m.pawn ∧ ¬(s = f ∧ pt = PieceType.pawn) := by
  cases pt
  case pawn =>
    simp only [SideManifest.removePiece, Finset.mem_erase]
    constructor
    · rintro ⟨hne, hp⟩
      refine ⟨hp, ?_⟩
      rintro ⟨he, -⟩
      exact hne he
    · rintro ⟨hp, hne⟩
      refine ⟨?_, hp⟩
      intro he
      exact hne ⟨he, by trivial⟩
  all_goals simp [SideManifest.removePiece]

/-- Membership in the non-pawn planes after `removePiece`, when the removed
piece really stood on its square and planes are disjoint. -/
theorem mem_nonPawnAll_removePiece {m : SideManifest} {pt : PieceType} {f : Sq}
    (hf : f ∈ m.getPlane pt) (hd : SideDisjoint m) (s : Sq) :
    s ∈ nonPawnAll (m.removePiece pt f) ↔
      s ∈ nonPawnAll m ∧ ¬(s = f ∧ pt ≠ PieceType.pawn) := by
  cases pt
  case pawn => simp [nonPawnAll, SideManifest.removePiece]
  case knight =>
    by_cases hsf : s = f
    · subst hsf
      have h1 : s ∉ m.bishop := fun hx => absurd (hd s PieceType.bishop PieceType.knight hx hf) (by decide)
      have h2 : s ∉ m.rook := fun hx => absurd (hd s PieceType.rook PieceType.knight hx hf) (by decide)
      have h3 : s ∉ m.queen := fun hx => absurd (hd s PieceType.queen PieceType.knight hx hf) (by decide)
      have h4 : s ∉ m.king := fun hx => absurd (hd s PieceType.king PieceType.knight hx hf) (by decide)
      simp [nonPawnAll, SideManifest.removePiece, h1, h2, h3, h4]
    · simp [nonPawnAll, SideManifest.removePiece, Finset.mem_erase, hsf]
  case bishop =>
    by_cases hsf : s = f
    · subst hsf
      have h1 : s ∉ m.knight := fun hx => absurd (hd s PieceType.knight PieceType.bishop hx hf) (by decide)
      have h2 : s ∉ m.rook := fun hx => absurd (hd s PieceType.rook PieceType.bishop hx hf) (by decide)
      have h3 : s ∉ m.queen := fun hx => absurd (hd s PieceType.queen PieceType.bishop hx hf) (by decide)
      have h4 : s ∉ m.king := fun hx => absurd (hd s PieceType.king PieceType.bishop hx hf) (by decide)
      simp [nonPawnAll, SideManifest.removePiece, h1, h2, h3, h4]
    · simp [nonPawnAll, SideManifest.removePiece, Finset.mem_erase, hsf]
  case rook =>
    by_cases hsf : s = f
    · subst hsf
      have h1 : s ∉ m.knight := fun hx => absurd (hd s PieceType.knight PieceType.rook hx hf) (by decide)
      have h2 : s ∉ m.bishop := fun hx => absurd (hd s PieceType.bishop PieceType.rook hx hf) (by decide)
      have h3 : s ∉ m.queen := fun hx => absurd (hd s PieceType.queen PieceType.rook hx hf) (by decide)
      have h4 : s ∉ m.king := fun hx => absurd (hd s PieceType.king PieceType.rook hx hf) (by decide)
      simp [nonPawnAll, SideManifest.removePiece, h1, h2, h3, h4]
    · simp [nonPawnAll, SideManifest.removePiece, Finset.mem_erase, hsf]
  case queen =>
    by_cases hsf : s = f
    · subst hsf
      have h1 : s ∉ m.knight := fun hx => absurd (hd s PieceType.knight PieceType.queen hx hf) (by decide)
      have h2 : s ∉ m.bishop := fun hx => absurd (hd s PieceType.bishop PieceType.queen hx hf) (by decide)
      have h3 : s ∉ m.rook := fun hx => absurd (hd s PieceType.rook PieceType.queen hx hf) (by decide)
      have h4 : s ∉ m.king := fun hx => absurd (hd s PieceType.king PieceType.queen hx hf) (by decide)
      simp [nonPawnAll, SideManifest.removePiece, h1, h2, h3, h4]
    · simp [nonPawnAll, SideManifest.removePiece, Finset.mem_erase, hsf]
  case king =>
    by_cases hsf : s = f
    · subst hsf
      have h1 : s ∉ m.knight := fun hx => absurd (hd s PieceType.knight PieceType.king hx hf) (by decide)
      have h2 : s ∉ m.bishop := fun hx => absurd (hd s PieceType.bishop PieceType.king hx hf) (by decide)
      have h3 : s ∉ m.rook := fun hx => absurd (hd s PieceType.rook PieceType.king hx hf) (by decide)
      have h4 : s ∉ m.queen := fun hx => absurd (hd s PieceType.queen PieceType.king hx hf) (by decide)
      simp [nonPawnAll, SideManifest.removePiece, h1, h2, h3, h4]
    · simp [nonPawnAll, SideManifest.removePiece, Finset.mem_erase, hsf]

/-- `removeBlast` keeps the pawn plane. -/
theorem removeBlast_pawn (m : SideManifest) (mask : SquareSet) :
    (m.removeBlast mask).pawn = m.pawn := rfl

/-- Membership in `all()` after `removeBlast`. -/
theorem mem_all_removeBlast (m : SideManifest) (mask : SquareSet) (s : Sq) :
    s ∈ (m.removeBlast mask).all ↔ s ∈ m.pawn ∨ (s ∈ nonPawnAll m ∧ s ∉ mask) := by
  simp only [SideManifest.all, SideManifest.removeBlast, nonPawnAll, Finset.mem_union,
    Finset.mem_sdiff]
  tauto

/-- The blast centre lies in its own explosion mask. -/
theorem center_mem_explosionMask (center : Sq) : center ∈ explosionMask center := by
  simp [explosionMask]

/-- A square in a non-pawn plane is in the non-pawn union. -/
theorem mem_nonPawnAll_of_mem_getPlane {m : SideManifest} {pt : PieceType} {s : Sq}
    (hpt : pt ≠ PieceType.pawn) (h : s ∈ m.getPlane pt) : s ∈ nonPawnAll m := by
  cases pt
  case pawn => exact absurd rfl hpt
  all_goals
    simp only [SideManifest.getPlane] at h
    simp [nonPawnAll, h]

/-- Occupancy of the board as the union of the two sides, seen from `c`. -/
theorem mem_occAll_iff (b : Board) (c : Color) (s : Sq) :
    s ∈ b.occAll ↔ s ∈ (b.man c).all ∨ s ∈ (b.man (opponent c)).all := by
  cases c <;> simp [Board.occAll, Board.man, opponent] <;> tauto

/-- The two pawn planes as seen from `c`. -/
theorem pawn_union_man (b : Board) (c : Color) (s : Sq) :
    (s ∈ b.white.pawn ∨ s ∈ b.black.pawn) ↔
      s ∈ (b.man c).pawn ∨ s ∈ (b.man (opponent c)).pawn := by
  cases c <;> simp [Board.man, opponent] <;> tauto

/-- The well-formedness facts of `BoardWF` read through `man`. -/
theorem boardWF_man (b : Board) (hwf : BoardWF b) (c : Color) :
    SideDisjoint (b.man c) ∧ SideDisjoint (b.man (opponent c)) ∧
      ∀ s : Sq, s ∈ (b.man c).all → s ∈ (b.man (opponent c)).all → False := by
  obtain ⟨hw, hb, hx⟩ := hwf
  cases c
  · exact ⟨hw, hb, hx⟩
  · exact ⟨hb, hw, fun s h1 h2 => hx s h2 h1⟩

/-- The mover's manifest after a validated non-castle capture: the mover
lifted, the placed piece removed again by the blast bookkeeping (it stands
on the blast centre's ring), net effect `removePiece` then `removeBlast`. -/
theorem forwardC_capture_man_us (c : Color) (b : Board) (mv : Move)
    (hnull : mv.isNull = false)
    (hcK : mv.isCastleOO c = false) (hcQ : mv.isCastleOOO c = false)
    (hcap : (mv.isCapture || mv.isEnpassant) = true)
    (hto : mv.toSq ∉ (b.man c).all) :
    (forwardC c b mv).man c =
      ((b.man c).removePiece mv.piece mv.fromSq).removeBlast
        (explosionMask (capturedSquare mv)) := by
  rw [forwardC_man_us c b mv hnull]
  simp only [hcQ, hcK, hcap, Bool.or_self, Bool.false_eq_true, eq_self_iff_true,
    if_false, if_true]
  have hx : mv.toSq ∉ ((b.man c).removePiece mv.piece mv.fromSq).all :=
    fun hmem => hto (all_removePiece_subset (b.man c) mv.piece mv.fromSq hmem)
  rw [addPiece_removePiece_cancel _ _ _ hx]
  rfl

/-- The opponent's manifest after a non-null `forward_`. -/
theorem forwardC_man_them (c : Color) (b : Board) (mv : Move) (hnull : mv.isNull = false) :
    (forwardC c b mv).man (opponent c) =
      (if mv.isCapture || mv.isEnpassant then
        (if mv.isEnpassant then
            (b.man (opponent c)).removePiece PieceType.pawn mv.epSq
          else (b.man (opponent c)).removePiece mv.captured mv.toSq).removeBlast
          (explosionMask (if mv.isEnpassant then mv.epSq else mv.toSq))
       else b.man (opponent c)) := by
  unfold forwardC
  rw [if_neg (by simp [hnull])]
  cases c <;>
    simp only [Board.setMan, Board.setLat, Board.man, opponent] <;>
    split_ifs <;>
    rfl

/-- The opponent's manifest after a capture or en passant: the captured man
lifted from the blast centre, then the blast. -/
theorem forwardC_capture_man_them (c : Color) (b : Board) (mv : Move)
    (hnull : mv.isNull = false) (hcap : (mv.isCapture || mv.isEnpassant) = true) :
    (forwardC c b mv).man (opponent c) =
      (if mv.isEnpassant then
          (b.man (opponent c)).removePiece PieceType.pawn mv.epSq
        else (b.man (opponent c)).removePiece mv.captured mv.toSq).removeBlast
        (explosionMask (capturedSquare mv)) := by
  rw [forwardC_man_them c b mv hnull]
  rw [if_pos hcap]
  rfl

/-- The propositional core of the capture-occupancy bookkeeping, over
abstract atoms: `P1`/`N1` pawn and non-pawn occupancy of the mover's side,
`P2`/`N2` of the opponent, `F` "this is the mover's origin", `C` "this is
the blast centre", `B` "this square is inside the blast mask", `Qp`/`Qc`
"the mover / the captured man is a pawn". -/
theorem capture_occ_prop (P1 N1 P2 N2 F C B Qp Qc : Prop)
    (husd : ¬(P1 ∧ N1)) (hthd : ¬(P2 ∧ N2))
    (hcross : ¬((P1 ∨ N1) ∧ (P2 ∨ N2)))
    (hFp : F → Qp → P1) (hFn : F → ¬Qp → N1)
    (hCp : C → Qc → P2) (hCn : C → ¬Qc → N2) :
    ((P1 ∧ ¬(F ∧ Qp)) ∨ ((N1 ∧ ¬(F ∧ ¬Qp)) ∧ ¬B)) ∨
        ((P2 ∧ ¬(C ∧ Qc)) ∨ ((N2 ∧ ¬(C ∧ ¬Qc)) ∧ ¬B)) ↔
      ((P1 ∨ N1) ∨ (P2 ∨ N2)) ∧
        ¬(F ∨ C ∨ (B ∧ ((P1 ∨ N1) ∨ (P2 ∨ N2)) ∧ ¬(P1 ∨ P2))) := by
  constructor
  · intro h
    have hocc : (P1 ∨ N1) ∨ (P2 ∨ N2) := by
      rcases h with (⟨hp, -⟩ | ⟨⟨hn, -⟩, -⟩) | (⟨hp, -⟩ | ⟨⟨hn, -⟩, -⟩)
      · exact Or.inl (Or.inl hp)
      · exact Or.inl (Or.inr hn)
      · exact Or.inr (Or.inl hp)
      · exact Or.inr (Or.inr hn)
    refine ⟨hocc, ?_⟩
    rintro (hF | hC | ⟨hB, -, hnp⟩)
    · by_cases hQp : Qp
      · have hp1 : P1 := hFp hF hQp
        rcases h with (⟨-, hnot⟩ | ⟨⟨hn1, -⟩, -⟩) | (⟨hp2, -⟩ | ⟨⟨hn2, -⟩, -⟩)
        · exact hnot ⟨hF, hQp⟩
        · exact husd ⟨hp1, hn1⟩
        · exact hcross ⟨Or.inl hp1, Or.inl hp2⟩
        · exact hcross ⟨Or.inl hp1, Or.inr hn2⟩
      · have hn1 : N1 := hFn hF hQp
        rcases h with (⟨hp1, -⟩ | ⟨⟨-, hnot⟩, -⟩) | (⟨hp2, -⟩ | ⟨⟨hn2, -⟩, -⟩)
        · exact husd ⟨hp1, hn1⟩
        · exact hnot ⟨hF, hQp⟩
        · exact hcross ⟨Or.inr hn1, Or.inl hp2⟩
        · exact hcross ⟨Or.inr hn1, Or.inr hn2⟩
    · by_cases hQc : Qc
      · have hp2 : P2 := hCp hC hQc
        rcases h with (⟨hp1, -⟩ | ⟨⟨hn1, -⟩, -⟩) | (⟨-, hnot⟩ | ⟨⟨hn2, -⟩, -⟩)
        · exact hcross ⟨Or.inl hp1, Or.inl hp2⟩
        · exact hcross ⟨Or.inr hn1, Or.inl hp2⟩
        · exact hnot ⟨hC, hQc⟩
        · exact hthd ⟨hp2, hn2⟩
      · have hn2 : N2 := hCn hC hQc
        rcases h with (⟨hp1, -⟩ | ⟨⟨hn1, -⟩, -⟩) | (⟨hp2, -⟩ | ⟨⟨-, hnot⟩, -⟩)
        · exact hcross ⟨Or.inl hp1, Or.inr hn2⟩
        · exact hcross ⟨Or.inr hn1, Or.inr hn2⟩
        · exact hthd ⟨hp2, hn2⟩
        · exact hnot ⟨hC, hQc⟩
    · rcases h with (⟨hp1, -⟩ | ⟨-, hnB⟩) | (⟨hp2, -⟩ | ⟨-, hnB⟩)
      · exact hnp (Or.inl hp1)
      · exact hnB hB
      · exact hnp (Or.inr hp2)
      · exact hnB hB
  · rintro ⟨hocc, hneg⟩
    have hnF : ¬F := fun hx => hneg (Or.inl hx)
    have hnC : ¬C := fun hx => hneg (Or.inr (Or.inl hx))
    have hni : ¬(B ∧ ((P1 ∨ N1) ∨ (P2 ∨ N2)) ∧ ¬(P1 ∨ P2)) :=
      fun hx => hneg (Or.inr (Or.inr hx))
    rcases hocc with (hp1 | hn1) | (hp2 | hn2)
    · exact Or.inl (Or.inl ⟨hp1, fun hx => hnF hx.1⟩)
    · by_cases hB : B
      · have hp : P1 ∨ P2 := by
          by_cases hp : P1 ∨ P2
          · exact hp
          · exact absurd ⟨hB, Or.inl (Or.inr hn1), hp⟩ hni
        rcases hp with hp1 | hp2
        · exact Or.inl (Or.inl ⟨hp1, fun hx => hnF hx.1⟩)
        · exact Or.inr (Or.inl ⟨hp2, fun hx => hnC hx.1⟩)
      · exact Or.inl (Or.inr ⟨⟨hn1, fun hx => hnF hx.1⟩, hB⟩)
    · exact Or.inr (Or.inl ⟨hp2, fun hx => hnC hx.1⟩)
    · by_cases hB : B
      · have hp : P1 ∨ P2 := by
          by_cases hp : P1 ∨ P2
          · exact hp
          · exact absurd ⟨hB, Or.inr (Or.inr hn2), hp⟩ hni
        rcases hp with hp1 | hp2
        · exact Or.inl (Or.inl ⟨hp1, fun hx => hnF hx.1⟩)
        · exact Or.inr (Or.inl ⟨hp2, fun hx => hnC hx.1⟩)
      · exact Or.inr (Or.inr ⟨⟨hn2, fun hx => hnC hx.1⟩, hB⟩)

/-- The occupancy bookkeeping of a capture at the manifest level: after
lifting the mover, lifting the captured man from the blast centre and
blasting the non-pawn planes of both sides, a square remains occupied iff
it was occupied before and is neither the mover's origin, nor the blast
centre, nor a non-pawn square inside the blast mask. -/
theorem capture_occ_aux (us them : SideManifest) (pc capPt : PieceType) (f capSq : Sq)
    (hdus : SideDisjoint us) (hdthem : SideDisjoint them)
    (hcross : ∀ t : Sq, t ∈ us.all → t ∈ them.all → False)
    (hfrom : f ∈ us.getPlane pc) (hcapmem : capSq ∈ them.getPlane capPt) (s : Sq) :
    (s ∈ ((us.removePiece pc f).removeBlast (explosionMask capSq)).all ∨
        s ∈ ((them.removePiece capPt capSq).removeBlast (explosionMask capSq)).all) ↔
      ((s ∈ us.all ∨ s ∈ them.all) ∧
        ¬(s = f ∨ s = capSq ∨
            (s ∈ explosionMask capSq ∧ (s ∈ us.all ∨ s ∈ them.all) ∧
              ¬(s ∈ us.pawn ∨ s ∈ them.pawn)))) := by
  have husd := not_pawn_and_nonPawn hdus s
  have hthd := not_pawn_and_nonPawn hdthem s
  have hcross' :
      ¬((s ∈ us.pawn ∨ s ∈ nonPawnAll us) ∧ (s ∈ them.pawn ∨ s ∈ nonPawnAll them)) := by
    rintro ⟨h1, h2⟩
    exact hcross s ((mem_all_split us s).mpr h1) ((mem_all_split them s).mpr h2)
  have hFp : s = f → pc = PieceType.pawn → s ∈ us.pawn := by
    rintro rfl h
    rw [h] at hfrom
    exact hfrom
  have hFn : s = f → pc ≠ PieceType.pawn → s ∈ nonPawnAll us := by
    rintro rfl h
    exact mem_nonPawnAll_of_mem_getPlane h hfrom
  have hCp : s = capSq → capPt = PieceType.pawn → s ∈ them.pawn := by
    rintro rfl h
    rw [h] at hcapmem
    exact hcapmem
  have hCn : s = capSq → capPt ≠ PieceType.pawn → s ∈ nonPawnAll them := by
    rintro rfl h
    exact mem_nonPawnAll_of_mem_getPlane h hcapmem
  rw [mem_all_removeBlast, mem_all_removeBlast,
      mem_pawn_removePiece, mem_pawn_removePiece,
      mem_nonPawnAll_removePiece hfrom hdus, mem_nonPawnAll_removePiece hcapmem hdthem,
      mem_all_split us s, mem_all_split them s]
  exact capture_occ_prop _ _ _ _ _ _ _ _ _ husd hthd hcross' hFp hFn hCp hCn

instance (m : SideManifest) : Decidable (SideDisjoint m) := by
  unfold SideDisjoint
  infer_instance

instance (b : Board) : Decidable (BoardWF b) := by
  unfold BoardWF
  infer_instance

instance (c : Color) (b : Board) (mv : Move) : Decidable (CaptureWF c b mv) := by
  unfold CaptureWF
  infer_instance

/-- C4: on a well-formed board, a validated capture or en-passant move is
executed by `forward_` exactly as the claim states: a square stays occupied
iff it was occupied before and is neither the mover's origin, nor the blast
centre (the captured pawn's square for en passant, the destination
otherwise), nor a non-pawn-occupied square of either color inside the
explosion mask around that centre; and no pawn plane loses any square other
than the mover's origin (for the mover's side) and the blast centre (for
the opponent), so no pawn other than the directly captured one is removed
by the blast. -/
theorem forward_capture_blast_removal (b : Board) (mv : Move)
    (hwf : BoardWF b) (hc : CaptureWF b.turnColor b mv) :
    (∀ s : Sq, s ∈ (b.forward mv).occAll ↔
        s ∈ b.occAll ∧ s ∉ captureRemovalSet b mv) ∧
    (∀ s : Sq, s ≠ mv.fromSq →
        (s ∈ ((b.forward mv).man b.turnColor).pawn ↔ s ∈ (b.man b.turnColor).pawn)) ∧
    (∀ s : Sq, s ≠ capturedSquare mv →
        (s ∈ ((b.forward mv).man (opponent b.turnColor)).pawn ↔
          s ∈ (b.man (opponent b.turnColor)).pawn)) := by
  obtain ⟨hcap, hcK, hcQ, hnull, hfrom, hto, hlast⟩ := hc
  obtain ⟨hdus, hdthem, hcross⟩ := boardWF_man b hwf b.turnColor
  have hcap' : (mv.isCapture || mv.isEnpassant) = true := by
    rcases hcap with h | h <;> simp [h]
  have hman_us : (b.forward mv).man b.turnColor =
      ((b.man b.turnColor).removePiece mv.piece mv.fromSq).removeBlast
        (explosionMask (capturedSquare mv)) :=
    forwardC_capture_man_us b.turnColor b mv hnull hcK hcQ hcap' hto
  obtain ⟨capPt, hcapmem, hman_them⟩ :
      ∃ capPt : PieceType,
        capturedSquare mv ∈ (b.man (opponent b.turnColor)).getPlane capPt ∧
          (b.forward mv).man (opponent b.turnColor) =
            ((b.man (opponent b.turnColor)).removePiece capPt
                (capturedSquare mv)).removeBlast
              (explosionMask (capturedSquare mv)) := by
    by_cases hep : mv.isEnpassant = true
    · rw [if_pos hep] at hlast
      have hcs : capturedSquare mv = mv.epSq := by simp [capturedSquare, hep]
      refine ⟨PieceType.pawn, ?_, ?_⟩
      · rw [hcs]
        exact hlast.1
      · have h := forwardC_capture_man_them b.turnColor b mv hnull hcap'
        rw [if_pos hep] at h
        rw [← hcs] at h
        exact h
    · rw [if_neg hep] at hlast
      have hepf : mv.isEnpassant = false := by simpa using hep
      have hcs : capturedSquare mv = mv.toSq := by simp [capturedSquare, hepf]
      refine ⟨mv.captured, ?_, ?_⟩
      · rw [hcs]
        exact hlast
      · have h := forwardC_capture_man_them b.turnColor b mv hnull hcap'
        rw [if_neg hep] at h
        rw [← hcs] at h
        exact h
  refine ⟨fun s => ?_, fun s hs => ?_, fun s hs => ?_⟩
  · have hx := capture_occ_aux (b.man b.turnColor) (b.man (opponent b.turnColor))
      mv.piece capPt mv.fromSq (capturedSquare mv) hdus hdthem hcross hfrom hcapmem s
    rw [mem_occAll_iff (b.forward mv) b.turnColor s, hman_us, hman_them, hx]
    simp only [captureRemovalSet, Finset.mem_union, Finset.mem_insert, Finset.mem_singleton,
      Finset.mem_inter, Finset.mem_sdiff]
    rw [mem_occAll_iff b b.turnColor s, pawn_union_man b b.turnColor s]
    clear hx hman_us hman_them hdus hdthem hcross hfrom hcapmem hcap' hcap hnull hto hcK
      hcQ hlast hwf
    tauto
  · rw [hman_us, removeBlast_pawn, mem_pawn_removePiece]
    exact ⟨fun h => h.1, fun h => ⟨h, fun hx => hs hx.1⟩⟩
  · rw [hman_them, removeBlast_pawn, mem_pawn_removePiece]
    exact ⟨fun h => h.1, fun h => ⟨h, fun hx => hs hx.1⟩⟩

/-- Witness: the knight-takes-knight capture on `seeBugBoard` satisfies the
well-formedness hypotheses of the C4 theorem, which then gives the exact
occupancy bookkeeping of that capture. -/
theorem forward_capture_blast_removal_witness :
    BoardWF seeBugBoard ∧ CaptureWF seeBugBoard.turnColor seeBugBoard knightTakesB2 ∧
      (∀ s : Sq, s ∈ (seeBugBoard.forward knightTakesB2).occAll ↔
          s ∈ seeBugBoard.occAll ∧ s ∉ captureRemovalSet seeBugBoard knightTakesB2) :=
  ⟨by decide, by decide,
    (forward_capture_blast_removal seeBugBoard knightTakesB2 (by decide) (by decide)).1⟩

end Seer











